import Mathlib

/-!
Verification of the AumOS maturity-assessment computation core.

This file gives a shallow embedding, over `ℚ`, of the scoring engine
(`adapters/scoring_engine.py`), the core scorer (`core/scoring.py`), the
benchmark comparator (`adapters/benchmark_comparator.py`) and the roadmap
planner (`adapters/roadmap_planner.py`), together with theorems checking the
specification's claims against the embedded code.

Modelling conventions:
* Python floats are modelled as rationals; `round(x, n)` is modelled as exact
  decimal rounding with ties to even (`roundDec`).
* Python dicts used as records are modelled as structures whose fields are the
  keys the code reads; `d.get(k, default)` on an absent key is modelled by the
  field itself (callers construct the records), except where a key can be
  genuinely absent in the modelled flows, in which case an `Option` or an
  association list is used.
* Presentation-only fields (formatted date strings, human-readable messages,
  colour tables, labels derived verbatim from other fields) are omitted; each
  omission is noted on the embedding.
* `raise`/uncaught exceptions are modelled by `Except String`.
-/

deriving instance DecidableEq for Except

namespace Aumos

/-- Round a rational to the nearest integer, ties to even
(the rounding used by Python's built-in `round`). -/
def roundHalfEven (x : ℚ) : ℤ :=
  if Int.fract x < 1/2 then ⌊x⌋
  else if 1/2 < Int.fract x then ⌊x⌋ + 1
  else if ⌊x⌋ % 2 = 0 then ⌊x⌋ else ⌊x⌋ + 1

/-- `roundDec d x` models Python's `round(x, d)` on our rational idealisation
of floats: round to `d` decimal places, ties to even. -/
def roundDec (d : ℕ) (x : ℚ) : ℚ :=
  (roundHalfEven (x * (10 : ℚ) ^ d) : ℚ) / (10 : ℚ) ^ d

/-- The five dimensions hard-coded in `scoring_engine.py`,
`benchmark_comparator.py` and `roadmap_planner.py`. -/
def dimensionsList : List String :=
  ["data", "process", "people", "technology", "governance"]

/-! ### Scoring engine (`adapters/scoring_engine.py`) -/

/-- `_score_to_maturity_level` of `scoring_engine.py`: map a 0-100 score to a
1-5 maturity level by the fixed thresholds 80/60/40/20. -/
def scoreToMaturityLevel (score : ℚ) : ℕ :=
  if 80 ≤ score then 5
  else if 60 ≤ score then 4
  else if 40 ≤ score then 3
  else if 20 ≤ score then 2
  else 1

/-- One response record as read by `ScoringEngine.compute_scores`:
`dimension`, `numeric_score` (read as `r.get("numeric_score") or 0.0`, so a
missing value behaves as `0.0`) and `weight` (read as `r.get("weight", 1.0)`,
so a missing value behaves as `1.0`). -/
structure Response where
  dimension : String
  numeric_score : Option ℚ
  weight : Option ℚ
deriving DecidableEq, Inhabited

/-- The per-dimension weighted average of `compute_scores`: over the responses
of `dim`, `round(Σ score·weight / Σ weight, 2)`; `0.0` for an empty group or a
zero total weight. -/
def dimensionScore (responses : List Response) (dim : String) : ℚ :=
  let dimResponses := responses.filter (fun r => r.dimension == dim)
  if dimResponses.isEmpty then 0
  else
    let totalWeight := (dimResponses.map (fun r => r.weight.getD 1)).sum
    if totalWeight = 0 then 0
    else
      let weightedSum :=
        (dimResponses.map (fun r => (r.numeric_score.getD 0) * r.weight.getD 1)).sum
      roundDec 2 (weightedSum / totalWeight)

/-- Output record of `ScoringEngine.compute_scores`. -/
structure ScoreResult where
  overall_score : ℚ
  maturity_level : ℕ
  data_score : ℚ
  process_score : ℚ
  people_score : ℚ
  technology_score : ℚ
  governance_score : ℚ
deriving DecidableEq, Inhabited

/-- `ScoringEngine.compute_scores`: per-dimension weighted averages over the
five configured dimensions, composite `round(Σ dim_score·dim_weight, 2)`, and
the maturity level of the composite. `dimension_weights.get(dim, 0.0)` is
modelled by an association-list lookup defaulting to `0`. -/
def computeScores (responses : List Response) (weights : List (String × ℚ)) :
    ScoreResult :=
  let wOf := fun d => ((weights.find? (fun p => p.1 == d)).map (fun p => p.2)).getD 0
  let ds := fun d => dimensionScore responses d
  let overall := roundDec 2 ((dimensionsList.map (fun d => ds d * wOf d)).sum)
  { overall_score := overall
    maturity_level := scoreToMaturityLevel overall
    data_score := ds "data"
    process_score := ds "process"
    people_score := ds "people"
    technology_score := ds "technology"
    governance_score := ds "governance" }

/-! ### Core scorer (`core/scoring.py`) -/

/-- `_MATURITY_THRESHOLDS` of `core/scoring.py`: `(threshold, level)` pairs
scanned in order. -/
def maturityThresholds : List (ℚ × ℕ) :=
  [(80, 5), (60, 4), (40, 3), (20, 2), (0, 1)]

/-- The scan loop of `AssessmentScorer.compute_maturity_level`: first level
whose threshold the score reaches, else `1`. -/
def scanThresholds (score : ℚ) : List (ℚ × ℕ) → ℕ
  | [] => 1
  | (t, l) :: rest => if t ≤ score then l else scanThresholds score rest

/-- `AssessmentScorer.compute_maturity_level`. -/
def computeMaturityLevel (score : ℚ) : ℕ :=
  scanThresholds score maturityThresholds

/-- One benchmark record as read by `AssessmentScorer.compute_peer_percentile`:
`industry_vertical` plus the `p25_score`/`p50_score`/`p75_score` breakpoints
(read with defaults `0.0`/`50.0`/`75.0`; modelled as present fields). -/
structure CoreBenchmark where
  industry_vertical : String
  p25_score : ℚ
  p50_score : ℚ
  p75_score : ℚ
deriving DecidableEq, Inhabited

/-- `AssessmentScorer.compute_peer_percentile`: filter benchmarks to the
industry; `50.0` when none match; otherwise piecewise-linear interpolation
against the first match's p25/p50/p75, each branch rounded to 1 decimal. -/
def computePeerPercentile (overall_score : ℚ) (industry : String)
    (benchmarks : List CoreBenchmark) : ℚ :=
  match benchmarks.filter (fun b => b.industry_vertical == industry) with
  | [] => 50
  | b :: _ =>
    let p25 := b.p25_score
    let p50 := b.p50_score
    let p75 := b.p75_score
    if overall_score ≤ p25 then
      if p25 = 0 then 0 else roundDec 1 ((overall_score / p25) * 25)
    else if overall_score ≤ p50 then
      if p50 = p25 then 25 else roundDec 1 (25 + (overall_score - p25) / (p50 - p25) * 25)
    else if overall_score ≤ p75 then
      if p75 = p50 then 50 else roundDec 1 (50 + (overall_score - p50) / (p75 - p50) * 25)
    else
      if 100 ≤ p75 then 100
      else roundDec 1 (75 + min ((overall_score - p75) / (100 - p75)) 1 * 25)

/-! ### Benchmark comparator (`adapters/benchmark_comparator.py`) -/

/-- One benchmark record as read by `BenchmarkComparator.select_peer_group`:
the matching keys `industry` and `organization_size`, and `sample_size`
(read as `b.get("sample_size", 0)`). The `benchmark_period` pass-through
field is presentation metadata and is omitted. -/
structure Benchmark where
  industry : String
  organization_size : String
  sample_size : ℕ
deriving DecidableEq, Inhabited

/-- Python's `max(benchmarks, key=lambda b: b.get("sample_size", 0))` on a
non-empty list: the first element of maximal sample size (a later element
replaces the current best only when strictly larger). -/
def maxBySample (b0 : Benchmark) (rest : List Benchmark) : Benchmark :=
  rest.foldl (fun best b => if best.sample_size < b.sample_size then b else best) b0

/-- Result record of `select_peer_group` (`selected_benchmark`,
`peer_group_description`, `match_quality`, `sample_size`; the
`benchmark_period` pass-through is omitted). -/
structure PeerGroupResult where
  selected_benchmark : Option Benchmark
  peer_group_description : String
  match_quality : String
  sample_size : ℕ
deriving DecidableEq, Inhabited

/-- The `exact_matches` filter of `select_peer_group`. -/
def exactMatches (industry organization_size : String)
    (available_benchmarks : List Benchmark) : List Benchmark :=
  available_benchmarks.filter
    (fun b => b.industry == industry && b.organization_size == organization_size)

/-- The `industry_matches` filter of `select_peer_group`. -/
def industryMatches (industry : String)
    (available_benchmarks : List Benchmark) : List Benchmark :=
  available_benchmarks.filter (fun b => b.industry == industry)

/-- The industry-only / global-fallback / no-data tail of `select_peer_group`
(reached when the exact-match branch does not fire). -/
def selectPeerGroupIndustry (industry : String)
    (available_benchmarks : List Benchmark) : PeerGroupResult :=
  match industryMatches industry available_benchmarks with
  | b0 :: brest =>
    let best := maxBySample b0 brest
    { selected_benchmark := some best
      peer_group_description := industry ++ " (all sizes)"
      match_quality := "industry_only"
      sample_size := best.sample_size }
  | [] =>
    match available_benchmarks with
    | b0 :: brest =>
      let bestGlobal := maxBySample b0 brest
      { selected_benchmark := some bestGlobal
        peer_group_description := "Global average (all industries)"
        match_quality := "global_fallback"
        sample_size := bestGlobal.sample_size }
    | [] =>
      { selected_benchmark := none
        peer_group_description := "No benchmark data available"
        match_quality := "none"
        sample_size := 0 }

/-- `BenchmarkComparator.select_peer_group` (the `tenant_id` argument is only
logged and is dropped): exact industry+size match if the *first* exact match
reaches `peer_group_min_size`, then industry-only, then global fallback, then
the no-data sentinel; the three data-carrying tiers select by largest sample
size. -/
def selectPeerGroup (industry organization_size : String)
    (available_benchmarks : List Benchmark) (peer_group_min_size : ℕ) :
    PeerGroupResult :=
  match exactMatches industry organization_size available_benchmarks with
  | b0 :: brest =>
    if peer_group_min_size ≤ b0.sample_size then
      let selected := maxBySample b0 brest
      { selected_benchmark := some selected
        peer_group_description := industry ++ " / " ++ organization_size
        match_quality := "exact"
        sample_size := selected.sample_size }
    else selectPeerGroupIndustry industry available_benchmarks
  | [] => selectPeerGroupIndustry industry available_benchmarks

/-- The four quantile breakpoints `_interpolate_percentile` reads for a
dimension (`benchmark.get(f"{prefix}p25", ...)` etc.; the key lookup with its
overall-level fallbacks resolves to these four values). -/
structure Quantiles where
  p25 : ℚ
  p50 : ℚ
  p75 : ℚ
  p90 : ℚ
deriving DecidableEq, Inhabited

/-- `BenchmarkComparator._interpolate_percentile`: piecewise-linear percentile
estimate through (p25,25), (p50,50), (p75,75), (p90,90), with degenerate
segments snapping to the lower percentile and the top segment clamped. -/
def interpolatePercentile (score : ℚ) (q : Quantiles) : ℚ :=
  if score ≤ q.p25 then
    if 0 < q.p25 then max 0 (25 * (score / q.p25)) else 0
  else if score ≤ q.p50 then
    if q.p25 < q.p50 then 25 + 25 * (score - q.p25) / (q.p50 - q.p25) else 25
  else if score ≤ q.p75 then
    if q.p50 < q.p75 then 50 + 25 * (score - q.p50) / (q.p75 - q.p50) else 50
  else if score ≤ q.p90 then
    if q.p75 < q.p90 then 75 + 15 * (score - q.p75) / (q.p90 - q.p75) else 75
  else
    90 + 10 * min ((score - q.p90) / max (100 - q.p90) 1) 1

/-- One gap-analysis entry as read by
`BenchmarkComparator.score_improvement_priorities` (`gap["dimension"]`,
`gap["gap_size"]`, `gap["severity"]`). -/
structure GapRec where
  dimension : String
  gap_size : ℚ
  severity : String
deriving DecidableEq, Inhabited

/-- The `difficulty_weights` table of `score_improvement_priorities`, with its
`.get(dimension, 0.6)` default. -/
def difficultyWeight (dimension : String) : ℚ :=
  if dimension = "data" then 0.6
  else if dimension = "process" then 0.5
  else if dimension = "people" then 0.8
  else if dimension = "technology" then 0.5
  else if dimension = "governance" then 0.7
  else 0.6

/-- One priority record produced by `score_improvement_priorities`
(`dimension_label` and the `rationale` sentence, both derived presentation
text, are omitted). `priority_rank` is `0` until `assignRanksFrom` runs. -/
structure PriorityRec where
  dimension : String
  gap_size : ℚ
  severity : String
  impact_score : ℚ
  effort_score : ℚ
  priority_score : ℚ
  is_quick_win : Bool
  priority_rank : ℕ
deriving DecidableEq, Inhabited

/-- `assessment_scores.get(dimension, 0.0)`. -/
def scoreLookup (scores : List (String × ℚ)) (dimension : String) : ℚ :=
  ((scores.find? (fun p => p.1 == dimension)).map (fun p => p.2)).getD 0

/-- The loop body of `score_improvement_priorities` for one gap entry:
`impact = min(1, gap/40)`, `effort = difficulty × (1 − min(1, score/100))`,
`priority = round(impact / max(effort, 0.1), 4)`, quick-win flag, with
`impact_score` and `effort_score` stored rounded to 4 decimals.
`assessment_scores.get(dimension, 0.0)` is an association-list lookup. -/
def mkPriority (scores : List (String × ℚ)) (g : GapRec) : PriorityRec :=
  let difficulty := difficultyWeight g.dimension
  let current := scoreLookup scores g.dimension
  let impact := min 1 (g.gap_size / 40)
  let effort := difficulty * (1 - min 1 (current / 100))
  { dimension := g.dimension
    gap_size := g.gap_size
    severity := g.severity
    impact_score := roundDec 4 impact
    effort_score := roundDec 4 effort
    priority_score := roundDec 4 (impact / max effort 0.1)
    is_quick_win :=
      decide (g.gap_size ≤ 15 ∧ effort ≤ 0.40 ∧
        (g.severity = "medium" ∨ g.severity = "low"))
    priority_rank := 0 }

/-- The rank-assignment pass after sorting: `priority_rank = 1, 2, 3, ...` in
list order. -/
def assignRanksFrom : ℕ → List PriorityRec → List PriorityRec
  | _, [] => []
  | n, p :: rest => { p with priority_rank := n } :: assignRanksFrom (n + 1) rest

/-- `BenchmarkComparator.score_improvement_priorities`: build a priority
record per gap entry, stable-sort descending by `priority_score`
(`list.sort(key=..., reverse=True)`), then assign 1-based ranks. -/
def scoreImprovementPriorities (gap_analysis : List GapRec)
    (assessment_scores : List (String × ℚ)) : List PriorityRec :=
  let recs := gap_analysis.map (mkPriority assessment_scores)
  assignRanksFrom 1 (recs.mergeSort (fun a b => decide (b.priority_score ≤ a.priority_score)))

/-- The rank-independent payload of a priority record, used to compare the
records against the specification formulas. -/
def priorityFields (r : PriorityRec) : String × ℚ × String × ℚ × ℚ × ℚ × Bool :=
  (r.dimension, r.gap_size, r.severity, r.impact_score, r.effort_score,
   r.priority_score, r.is_quick_win)

/-- Specification-side priority tuple for one gap entry, written directly
from the spec formulas: `impact = min(1, gap/40)`,
`effort = difficulty_weight(dimension) × (1 − min(1, score/100))`,
`priority = impact / max(effort, 0.1)`, quick win iff
`gap ≤ 15 ∧ effort ≤ 0.40 ∧ severity ∈ {medium, low}`; the three scores are
recorded rounded to 4 decimals. -/
def specPriorityTuple (scores : List (String × ℚ)) (g : GapRec) :
    String × ℚ × String × ℚ × ℚ × ℚ × Bool :=
  let impact := min 1 (g.gap_size / 40)
  let effort := difficultyWeight g.dimension *
    (1 - min 1 (scoreLookup scores g.dimension / 100))
  (g.dimension, g.gap_size, g.severity, roundDec 4 impact, roundDec 4 effort,
   roundDec 4 (impact / max effort 0.1),
   decide (g.gap_size ≤ 15 ∧ effort ≤ 0.40 ∧
     (g.severity = "medium" ∨ g.severity = "low")))

/-! ### Roadmap planner (`adapters/roadmap_planner.py`) -/

/-- `_effort_to_label`: first matching bucket of `EFFORT_LABELS`. -/
def effortToLabel (effort_weeks : ℚ) : String :=
  if effort_weeks ≤ 4 then "quick_win"
  else if effort_weeks ≤ 8 then "short_term"
  else if effort_weeks ≤ 16 then "medium_term"
  else "long_term"

/-- `_impact_to_label`: first matching bucket of `IMPACT_LABELS`. -/
def impactToLabel (impact_score : ℚ) : String :=
  if 8 ≤ impact_score then "transformational"
  else if 6 ≤ impact_score then "significant"
  else if 4 ≤ impact_score then "moderate"
  else "incremental"

/-- `DIMENSION_DEPENDENCIES` of `roadmap_planner.py`, in source order. -/
def dimensionDependenciesTable : List (String × List String) :=
  [("process", ["data"]), ("technology", ["data"]), ("governance", ["process"]),
   ("people", []), ("data", [])]

/-- `DIMENSION_DEPENDENCIES.get(dimension, [])`. -/
def dimDeps (dimension : String) : List String :=
  ((dimensionDependenciesTable.find? (fun p => p.1 == dimension)).map (fun p => p.2)).getD []

/-- `PHASE_ORDER` of `roadmap_planner.py`. -/
def phaseOrderList : List String :=
  ["quick_wins", "foundation", "scale", "optimize"]

/-- `PHASE_ORDER.index(phase) if phase in PHASE_ORDER else 2`, the phase sort
key used by `sequence_by_priority` and `identify_dependencies`. -/
def phaseRank (phase : String) : ℕ :=
  if phaseOrderList.contains phase then phaseOrderList.indexOf phase else 2

/-- One action template as read by `map_gaps_to_actions`: `title`,
`description`, `effort_weeks` (`.get` default 8), `impact_score` (default
5.0), `phase` (default "foundation"); defaults are applied at record
construction, and the presentation-only `tags` list is omitted. -/
structure ActionTemplate where
  title : String
  description : String
  effort_weeks : ℚ
  impact_score : ℚ
  phase : String
deriving DecidableEq, Inhabited

/-- One entry of `gap_analysis["dimension_gaps"]` as read by
`map_gaps_to_actions` (`dimension` with `.get` default `""`,
`gap_to_best_in_class` with default `0.0`); the wrapper dict's other keys are
not read. -/
structure GapItem where
  dimension : String
  gap_to_best_in_class : ℚ
deriving DecidableEq, Inhabited

/-- One action dict produced by `map_gaps_to_actions` (the presentation-only
`tags` list is omitted). -/
structure MappedAction where
  id : String
  dimension : String
  title : String
  description : String
  effort_weeks : ℚ
  effort_label : String
  impact_score : ℚ
  impact_label : String
  phase : String
  gap_addressed_points : ℚ
deriving DecidableEq, Inhabited

/-- Zero-pad a numeral to width 3, as Python's `f"{n:03d}"` for `n ≥ 0`. -/
def pad3 (n : ℕ) : String :=
  let s := toString n
  if 3 ≤ s.length then s else String.mk (List.replicate (3 - s.length) '0') ++ s

/-- The action dict built for one retained template in
`map_gaps_to_actions` (id `f"act-{dimension[:3]}-{counter+1:03d}"`). -/
def mkMappedAction (dimension : String) (gap : ℚ) (t : ActionTemplate)
    (counter : ℕ) : MappedAction :=
  { id := "act-" ++ dimension.take 3 ++ "-" ++ pad3 (counter + 1)
    dimension := dimension
    title := t.title
    description := t.description
    effort_weeks := t.effort_weeks
    effort_label := effortToLabel t.effort_weeks
    impact_score := t.impact_score
    impact_label := impactToLabel t.impact_score
    phase := t.phase
    gap_addressed_points := roundDec 2 gap }

/-- Insert-or-overwrite on an insertion-ordered association list: the model of
`dict[k] = v` (first occurrence keeps its position, value replaced). -/
def gapsUpsert : List (String × ℚ) → String → ℚ → List (String × ℚ)
  | [], k, v => [(k, v)]
  | p :: rest, k, v =>
    if p.1 == k then (k, v) :: rest else p :: gapsUpsert rest k v

/-- The `dimension_gaps` dict of `map_gaps_to_actions`: entries with a
non-empty dimension and a strictly positive gap, keyed by dimension in
first-occurrence order, later values overwriting earlier ones. -/
def collectDimensionGaps (items : List GapItem) : List (String × ℚ) :=
  items.foldl
    (fun acc it =>
      if !(it.dimension == "") && decide (0 < it.gap_to_best_in_class) then
        gapsUpsert acc it.dimension it.gap_to_best_in_class
      else acc)
    []

/-- `sorted(dimension_gaps.items(), key=lambda x: x[1], reverse=True)`:
stable sort by gap magnitude descending. -/
def sortedGapDims (items : List GapItem) : List (String × ℚ) :=
  (collectDimensionGaps items).mergeSort (fun a b => decide (b.2 ≤ a.2))

/-- `self._library.get(dimension, [])`. -/
def libGet (lib : List (String × List ActionTemplate)) (d : String) :
    List ActionTemplate :=
  ((lib.find? (fun p => p.1 == d)).map (fun p => p.2)).getD []

/-- Negation of the horizon-exclusion test of `map_gaps_to_actions`: keep a
template unless `effort_weeks * 1.2 > horizon_weeks` and its phase is not
`"quick_wins"`. -/
def keepTemplate (horizon_weeks : ℚ) (t : ActionTemplate) : Bool :=
  !(decide (horizon_weeks < t.effort_weeks * 1.2) && !(t.phase == "quick_wins"))

/-- The inner template loop of `map_gaps_to_actions` for one dimension:
returns the actions built plus the updated action counter; stops at the
initiative cap. -/
def buildFromTemplates (d : String) (g horizon_weeks : ℚ) (cap : ℕ) :
    List ActionTemplate → ℕ → List MappedAction × ℕ
  | [], counter => ([], counter)
  | t :: rest, counter =>
    if cap ≤ counter then ([], counter)
    else if keepTemplate horizon_weeks t then
      let p := buildFromTemplates d g horizon_weeks cap rest (counter + 1)
      (mkMappedAction d g t counter :: p.1, p.2)
    else buildFromTemplates d g horizon_weeks cap rest counter

/-- The outer dimension loop of `map_gaps_to_actions`. -/
def buildFromDims (lib : List (String × List ActionTemplate))
    (horizon_weeks : ℚ) (cap : ℕ) :
    List (String × ℚ) → ℕ → List MappedAction
  | [], _ => []
  | (d, g) :: rest, counter =>
    if cap ≤ counter then []
    else
      let p := buildFromTemplates d g horizon_weeks cap (libGet lib d) counter
      p.1 ++ buildFromDims lib horizon_weeks cap rest p.2

/-- Result record of `map_gaps_to_actions`. The `dimensions_addressed` key is
built from a Python set, whose iteration order is unspecified, and is
omitted. -/
structure MapGapsResult where
  actions : List MappedAction
  total_actions_count : ℕ
  horizon_months : ℕ
deriving DecidableEq, Inhabited

/-- `RoadmapPlanner.map_gaps_to_actions` with library `lib` and initiative cap
`cap`: positive-gap dimensions sorted by gap descending, candidate templates
filtered by the horizon test (`horizon_weeks = horizon_months * 4.33`),
capped at `cap` total actions. A dimension absent from the library
contributes no actions (`self._library.get(dimension, [])`); no error is
raised for it. -/
def mapGapsToActions (lib : List (String × List ActionTemplate))
    (gap_items : List GapItem) (horizon_months : ℕ) (cap : ℕ) :
    MapGapsResult :=
  let horizon_weeks := (horizon_months : ℚ) * 4.33
  let acts := buildFromDims lib horizon_weeks cap (sortedGapDims gap_items) 0
  { actions := acts
    total_actions_count := acts.length
    horizon_months := horizon_months }

/-- Specification-side reconstruction of the action list built by
`map_gaps_to_actions`: emit one action per candidate, numbering them from
`counter`. -/
def mkSeqFrom : ℕ → List (String × ℚ × ActionTemplate) → List MappedAction
  | _, [] => []
  | counter, c :: rest =>
    mkMappedAction c.1 c.2.1 c.2.2 counter :: mkSeqFrom (counter + 1) rest

/-- Specification-side reconstruction of the candidate stream of
`map_gaps_to_actions`: for each positive-gap dimension in gap-descending
order, its library templates that survive the horizon filter. -/
def candidatesFrom (lib : List (String × List ActionTemplate))
    (horizon_weeks : ℚ) (dims : List (String × ℚ)) :
    List (String × ℚ × ActionTemplate) :=
  dims.flatMap (fun p =>
    ((libGet lib p.1).filter (keepTemplate horizon_weeks)).map (fun t => (p.1, p.2, t)))

/-- One action dict as read by `sequence_by_priority`, `generate_timeline`
and `identify_dependencies`: exactly the keys those stages read (`id`,
`title`, `dimension`, `phase`, `effort_weeks`, `impact_score`), with the
`.get` defaults applied at record construction. -/
structure PlanAction where
  id : String
  title : String
  dimension : String
  phase : String
  effort_weeks : ℚ
  impact_score : ℚ
deriving DecidableEq, Inhabited

/-- The 3-key sort of `sequence_by_priority`: phase rank ascending, then
impact score descending, then effort weeks ascending (Python tuple-key
sort). -/
def seqLe (a b : PlanAction) : Bool :=
  decide (phaseRank a.phase < phaseRank b.phase) ||
    (phaseRank a.phase == phaseRank b.phase &&
      (decide (b.impact_score < a.impact_score) ||
        (a.impact_score == b.impact_score &&
          decide (a.effort_weeks ≤ b.effort_weeks))))

/-- One warning dict of `_detect_dependency_violations` (the formatted
`message` sentence is omitted; `warning_type` is always
`"dependency_violation"`). -/
structure Warning where
  warning_type : String
  dimension : String
  prerequisite_dimension : String
deriving DecidableEq, Inhabited

/-- The warning record emitted for a violated prerequisite. -/
def dependencyViolationWarning (dimension prerequisite : String) : Warning :=
  { warning_type := "dependency_violation"
    dimension := dimension
    prerequisite_dimension := prerequisite }

/-- The `first_index` lookup of `_detect_dependency_violations`: index of the
first action of a dimension, if any. -/
def firstIndexOfDim (l : List PlanAction) (d : String) : Option ℕ :=
  l.findIdx? (fun a => a.dimension == d)

/-- `_detect_dependency_violations`: for every `(dimension, prereqs)` in the
fixed dependency table, warn whenever the first action of the dependent
dimension occurs strictly before the first action of a prerequisite
dimension. -/
def detectDependencyViolations (sequenced : List PlanAction) : List Warning :=
  dimensionDependenciesTable.flatMap (fun p =>
    p.2.filterMap (fun prereq =>
      match firstIndexOfDim sequenced p.1, firstIndexOfDim sequenced prereq with
      | some didx, some pidx =>
        if didx < pidx then some (dependencyViolationWarning p.1 prereq) else none
      | _, _ => none))

/-- Result record of `sequence_by_priority`. -/
structure SequenceResult where
  sequenced_actions : List PlanAction
  quick_wins : List PlanAction
  strategic_initiatives : List PlanAction
  dependency_warnings : List Warning
deriving DecidableEq, Inhabited

/-- `RoadmapPlanner.sequence_by_priority` with quick-win thresholds
`qw_effort` (default 6 weeks) and `qw_impact` (default 6.5): stable sort by
the 3-key tuple, tag quick wins and strategic initiatives, detect dependency
violations on the sorted sequence. -/
def sequenceByPriority (actions : List PlanAction)
    (qw_effort : ℚ := 6) (qw_impact : ℚ := 6.5) : SequenceResult :=
  let sequenced := actions.mergeSort seqLe
  let quickWins := sequenced.filter (fun a =>
    (decide (a.effort_weeks ≤ qw_effort) && decide (qw_impact ≤ a.impact_score)) ||
      a.phase == "quick_wins")
  let strategic := sequenced.filter (fun a =>
    !(quickWins.contains a) && (a.phase == "scale" || a.phase == "optimize"))
  { sequenced_actions := sequenced
    quick_wins := quickWins
    strategic_initiatives := strategic
    dependency_warnings := detectDependencyViolations sequenced }

/-- One timeline entry of `generate_timeline`. The calendar-date strings
(`start_date`, `end_date`), derived from the week offsets and the kickoff
date, are omitted. Inside the scheduler the `start_week`/`end_week` fields
hold the raw (unrounded) week offsets; the source's rounding of both fields
to one decimal at entry construction is applied by `roundEntry` on output
(the fields are never read back during scheduling, so this is the same
record). -/
structure TimelineEntry where
  action_id : String
  title : String
  dimension : String
  phase : String
  stream : ℕ
  start_week : ℚ
  end_week : ℚ
  effort_weeks : ℚ
deriving DecidableEq, Inhabited

/-- Mutable state of the scheduling loop of `generate_timeline`:
`stream_end_weeks`, `dimension_completion_weeks` and the accumulated
`timeline_entries`. -/
structure SchedState where
  streams : List ℚ
  dimComp : List (String × ℚ)
  entries : List TimelineEntry
deriving DecidableEq, Inhabited

/-- `dimension_completion_weeks.get(k, 0.0)`. -/
def alistGetQ (l : List (String × ℚ)) (k : String) : ℚ :=
  ((l.find? (fun p => p.1 == k)).map (fun p => p.2)).getD 0

/-- `dimension_completion_weeks[k] = v` on the insertion-ordered dict. -/
def alistSetQ : List (String × ℚ) → String → ℚ → List (String × ℚ)
  | [], k, v => [(k, v)]
  | p :: rest, k, v =>
    if p.1 == k then (k, v) :: rest else p :: alistSetQ rest k v

/-- The stream-selection loop of `generate_timeline`: starting from
`best_stream_start = inf`, scan the stream cursors in order and keep the
first stream whose candidate start `max(stream_end, earliest)` is strictly
smaller than the best so far. `none` models the never-updated initial state
(possible only with zero streams). -/
def chooseStreamGo (earliest : ℚ) :
    List ℚ → ℕ → Option (ℕ × ℚ) → Option (ℕ × ℚ)
  | [], _, acc => acc
  | c :: rest, idx, acc =>
    let cand := max c earliest
    let acc' := match acc with
      | none => some (idx, cand)
      | some (bi, bs) => if cand < bs then some (idx, cand) else some (bi, bs)
    chooseStreamGo earliest rest (idx + 1) acc'

/-- Select the stream for the next action (see `chooseStreamGo`). -/
def chooseStream (streams : List ℚ) (earliest : ℚ) : Option (ℕ × ℚ) :=
  chooseStreamGo earliest streams 0 none

/-- `earliest_start_week` for one action: the fold of
`max(earliest, dimension_completion_weeks.get(prereq, 0.0))` over the
action's dimension prerequisites, starting from the global start week 0. -/
def earliestOf (st : SchedState) (a : PlanAction) : ℚ :=
  (dimDeps a.dimension).foldl (fun acc p => max acc (alistGetQ st.dimComp p)) 0

/-- The state after scheduling action `a` on stream `b` at start week `s`:
cursor advance, dimension-completion update, entry emission. -/
def stepState (st : SchedState) (a : PlanAction) (b : ℕ) (s : ℚ) : SchedState :=
  { streams := st.streams.set b (s + a.effort_weeks)
    dimComp := alistSetQ st.dimComp a.dimension
      (max (alistGetQ st.dimComp a.dimension) (s + a.effort_weeks))
    entries := st.entries ++
      [{ action_id := a.id, title := a.title, dimension := a.dimension,
         phase := a.phase, stream := b + 1, start_week := s,
         end_week := s + a.effort_weeks, effort_weeks := a.effort_weeks }] }

/-- One iteration of the scheduling loop of `generate_timeline`: earliest
permissible start from the dimension prerequisites, greedy stream choice,
cursor and completion updates, entry emission. With zero streams the source
raises `IndexError` at `stream_end_weeks[best_stream] = action_end_week`;
this is the `Except.error` case. -/
def schedStep (st : SchedState) (a : PlanAction) : Except String SchedState :=
  match chooseStream st.streams (earliestOf st a) with
  | none => Except.error "IndexError: list assignment index out of range"
  | some (b, s) => Except.ok (stepState st a b s)

/-- The scheduling loop of `generate_timeline` over the sequenced actions. -/
def schedRun : SchedState → List PlanAction → Except String SchedState
  | st, [] => Except.ok st
  | st, a :: rest =>
    match schedStep st a with
    | Except.error msg => Except.error msg
    | Except.ok st' => schedRun st' rest

/-- `max(stream_end_weeks) if stream_end_weeks else 0.0`. -/
def listMaxD (l : List ℚ) : ℚ :=
  match l with
  | [] => 0
  | c :: rest => rest.foldl max c

/-- Apply the source's one-decimal rounding of `start_week` and `end_week`
recorded on each timeline entry. -/
def roundEntry (e : TimelineEntry) : TimelineEntry :=
  { e with start_week := roundDec 1 e.start_week, end_week := roundDec 1 e.end_week }

/-- Result record of `generate_timeline` (the `start_date` and
`projected_end_date` calendar strings are omitted). -/
structure TimelineResult where
  timeline_entries : List TimelineEntry
  duration_weeks : ℚ
deriving DecidableEq, Inhabited

/-- `RoadmapPlanner.generate_timeline` with `parallel_streams` work streams:
the greedy multi-stream scheduler. The `start_date` argument only shifts the
omitted calendar strings and is dropped. -/
def generateTimeline (sequenced_actions : List PlanAction)
    (parallel_streams : ℕ) : Except String TimelineResult :=
  match schedRun ⟨List.replicate parallel_streams 0, [], []⟩ sequenced_actions with
  | Except.error msg => Except.error msg
  | Except.ok st =>
    Except.ok
      { timeline_entries := st.entries.map roundEntry
        duration_weeks := roundDec 1 (listMaxD st.streams) }

/-- One dependency edge of `identify_dependencies`. The source dict stores
`from_action_id`/`to_action_id`; the edge here carries the two endpoint
action records themselves, whose `id` fields are exactly those ids (the
formatted `description` sentence is omitted). -/
structure DependencyEdge where
  fromAction : PlanAction
  toAction : PlanAction
  dependency_type : String
deriving DecidableEq, Inhabited

/-- `by_dimension.setdefault(dim, []).append(action)` over the action list:
insertion-ordered grouping by dimension. -/
def groupUpsert : List (String × List PlanAction) → String → PlanAction →
    List (String × List PlanAction)
  | [], d, a => [(d, [a])]
  | p :: rest, d, a =>
    if p.1 == d then (p.1, p.2 ++ [a]) :: rest else p :: groupUpsert rest d a

/-- The `by_dimension` grouping of `identify_dependencies`. -/
def groupByDimension (actions : List PlanAction) :
    List (String × List PlanAction) :=
  actions.foldl (fun acc a => groupUpsert acc a.dimension a) []

/-- `by_dimension.get(d, [])`. -/
def groupsGet (groups : List (String × List PlanAction)) (d : String) :
    List PlanAction :=
  ((groups.find? (fun p => p.1 == d)).map (fun p => p.2)).getD []

/-- Consecutive pairs of a list (`sorted_dim[i], sorted_dim[i+1]`). -/
def consecPairs : List PlanAction → List (PlanAction × PlanAction)
  | a :: b :: rest => (a, b) :: consecPairs (b :: rest)
  | _ => []

/-- Intra-dimension `phase_sequence` edges of `identify_dependencies`:
consecutive actions of differing phase in the phase-rank-sorted list of each
dimension. -/
def intraEdges (groups : List (String × List PlanAction)) :
    List DependencyEdge :=
  groups.flatMap (fun p =>
    (consecPairs (p.2.mergeSort (fun a b => decide (phaseRank a.phase ≤ phaseRank b.phase)))).filterMap
      (fun q =>
        if q.1.phase == q.2.phase then none
        else some { fromAction := q.1, toAction := q.2, dependency_type := "phase_sequence" }))

/-- Python's `min(dim_actions, key=phase_rank)`: first action of minimal
phase rank. -/
def minByPhaseRank (a0 : PlanAction) (rest : List PlanAction) : PlanAction :=
  rest.foldl (fun best a => if phaseRank a.phase < phaseRank best.phase then a else best) a0

/-- Cross-dimension edges of `identify_dependencies` for one dependent
dimension and its prerequisite list: the first (lowest-phase-rank) dependent
action depends on up to two foundation-phase actions of each prerequisite
dimension (falling back to the first prerequisite action when none are in a
foundation phase). -/
def crossEdgesFor (groups : List (String × List PlanAction))
    (dimension : String) (prereq_dims : List String) : List DependencyEdge :=
  match groupsGet groups dimension with
  | [] => []
  | d0 :: drest =>
    prereq_dims.flatMap (fun prereq =>
      match groupsGet groups prereq with
      | [] => []
      | q0 :: qrest =>
        let prereqActions := q0 :: qrest
        let foundation0 := prereqActions.filter
          (fun a => a.phase == "quick_wins" || a.phase == "foundation")
        let prereqFoundation :=
          if foundation0.isEmpty then prereqActions.take 1 else foundation0
        let firstDependent := minByPhaseRank d0 drest
        (prereqFoundation.take 2).map (fun q =>
          { fromAction := q, toAction := firstDependent,
            dependency_type := "cross_dimension" }))

/-- All cross-dimension edges of `identify_dependencies`, in the fixed order
of `DIMENSION_DEPENDENCIES`. -/
def crossEdges (groups : List (String × List PlanAction)) :
    List DependencyEdge :=
  dimensionDependenciesTable.flatMap (fun p => crossEdgesFor groups p.1 p.2)

/-- `RoadmapPlanner.identify_dependencies`: the `dependencies` list of the
returned dict (its `dependency_graph` and `orphaned_actions` keys are views
derived from this list and are omitted). -/
def identifyDependencies (actions : List PlanAction) : List DependencyEdge :=
  let groups := groupByDimension actions
  intraEdges groups ++ crossEdges groups

/-! ### Invariants of the scheduling loop -/

/-- A rational that is (the cast of) a natural number. All scheduler
quantities are such when every effort is. -/
def qIsNat (x : ℚ) : Prop := ∃ n : ℕ, x = (n : ℚ)

/-- Dimension-causality invariant of the scheduling state: the completion
table dominates the end week of every emitted entry of its dimension, and an
entry always starts no earlier than the end of any earlier entry of a
prerequisite dimension. -/
def InvDim (st : SchedState) : Prop :=
  (∀ e ∈ st.entries, e.end_week ≤ alistGetQ st.dimComp e.dimension) ∧
  st.entries.Pairwise
    (fun e1 e2 => e1.dimension ∈ dimDeps e2.dimension → e1.end_week ≤ e2.start_week)

/-- Stream invariant of the scheduling state (sound when all efforts are
non-negative): cursors are non-negative, every entry has a valid stream whose
cursor dominates its end week, entries satisfy `end = start + effort` and
start at week ≥ 0, and entries on a common stream are disjoint in order. -/
def InvStream (st : SchedState) : Prop :=
  (∀ c ∈ st.streams, 0 ≤ c) ∧
  (∀ e ∈ st.entries,
    0 ≤ e.start_week ∧ e.end_week = e.start_week + e.effort_weeks ∧
      ∃ b, e.stream = b + 1 ∧ b < st.streams.length ∧ e.end_week ≤ st.streams.getD b 0) ∧
  st.entries.Pairwise
    (fun e1 e2 => e1.stream = e2.stream → e1.end_week ≤ e2.start_week)

/-- Integrality invariant: all cursors, completion weeks and entry weeks are
natural-valued (sound when all efforts are). -/
def InvNat (st : SchedState) : Prop :=
  (∀ c ∈ st.streams, qIsNat c) ∧
  (∀ p ∈ st.dimComp, qIsNat p.2) ∧
  (∀ e ∈ st.entries, qIsNat e.start_week ∧ qIsNat e.end_week)

/-! ### Concrete instances used by counterexamples and witnesses -/

/-- A quick-win data action (effort 3 weeks, impact 8). -/
def c1ActA : PlanAction :=
  { id := "act-dat-001", title := "Data QW", dimension := "data",
    phase := "quick_wins", effort_weeks := 3, impact_score := 8 }

/-- A quick-win process action (effort 3 weeks, impact 7). -/
def c1ActB : PlanAction :=
  { id := "act-pro-002", title := "Process QW", dimension := "process",
    phase := "quick_wins", effort_weeks := 3, impact_score := 7 }

/-- A foundation-phase data action (effort 8 weeks, impact 8). -/
def c1ActC : PlanAction :=
  { id := "act-dat-003", title := "Data Foundation", dimension := "data",
    phase := "foundation", effort_weeks := 8, impact_score := 8 }

/-- A sequence already in priority order: data quick win, process quick win,
then a second data action in the foundation phase. -/
def c1Acts : List PlanAction := [c1ActA, c1ActB, c1ActC]

/-- The timeline `generate_timeline` produces for `c1Acts` with two parallel
streams. -/
def c1Timeline : TimelineResult :=
  { timeline_entries :=
      [{ action_id := "act-dat-001", title := "Data QW", dimension := "data",
         phase := "quick_wins", stream := 1, start_week := 0, end_week := 3,
         effort_weeks := 3 },
       { action_id := "act-pro-002", title := "Process QW", dimension := "process",
         phase := "quick_wins", stream := 1, start_week := 3, end_week := 6,
         effort_weeks := 3 },
       { action_id := "act-dat-003", title := "Data Foundation", dimension := "data",
         phase := "foundation", stream := 2, start_week := 0, end_week := 8,
         effort_weeks := 8 }]
    duration_weeks := 8 }

/-- The cross-dimension edge from the late data foundation action to the
process quick win, as emitted by `identify_dependencies` on `c1Acts`. -/
def c1LateEdge : DependencyEdge :=
  { fromAction := c1ActC, toAction := c1ActB, dependency_type := "cross_dimension" }

/-- The cross-dimension edge from the early data quick win to the process
quick win, as emitted by `identify_dependencies` on `c1Acts`. -/
def c1EarlyEdge : DependencyEdge :=
  { fromAction := c1ActA, toAction := c1ActB, dependency_type := "cross_dimension" }

/-- An action with fractional effort (1/25 of a week, i.e. 0.04). -/
def c9Act : PlanAction :=
  { id := "act-001", title := "Fractional", dimension := "people",
    phase := "quick_wins", effort_weeks := 1/25, impact_score := 5 }

/-- The timeline `generate_timeline` produces for `[c9Act]` on one stream:
both recorded weeks round to 0.0 while the effort is 0.04. -/
def c9Timeline : TimelineResult :=
  { timeline_entries :=
      [{ action_id := "act-001", title := "Fractional", dimension := "people",
         phase := "quick_wins", stream := 1, start_week := 0, end_week := 0,
         effort_weeks := 1/25 }]
    duration_weeks := 0 }

/-- An action with an integer effort, scheduled alone (witness input). -/
def w9Act : PlanAction :=
  { id := "w1", title := "W1", dimension := "data", phase := "quick_wins",
    effort_weeks := 2, impact_score := 5 }

/-- The timeline `generate_timeline` produces for `[w9Act]` on one stream. -/
def w9Timeline : TimelineResult :=
  { timeline_entries :=
      [{ action_id := "w1", title := "W1", dimension := "data",
         phase := "quick_wins", stream := 1, start_week := 0, end_week := 2,
         effort_weeks := 2 }]
    duration_weeks := 2 }

/-! ## Lemmas about rounding -/

theorem le_roundHalfEven (x : ℚ) : ⌊x⌋ ≤ roundHalfEven x := by
  unfold roundHalfEven
  split_ifs <;> omega

theorem roundHalfEven_le (x : ℚ) : roundHalfEven x ≤ ⌊x⌋ + 1 := by
  unfold roundHalfEven
  split_ifs <;> omega

theorem roundHalfEven_of_fract_lt {x : ℚ} (h : Int.fract x < 1/2) :
    roundHalfEven x = ⌊x⌋ := by
  unfold roundHalfEven
  rw [if_pos h]

theorem roundHalfEven_of_lt_fract {x : ℚ} (h : 1/2 < Int.fract x) :
    roundHalfEven x = ⌊x⌋ + 1 := by
  unfold roundHalfEven
  rw [if_neg (by linarith), if_pos h]

theorem roundHalfEven_mono {x y : ℚ} (h : x ≤ y) :
    roundHalfEven x ≤ roundHalfEven y := by
  rcases lt_or_le ⌊x⌋ ⌊y⌋ with hf | hf
  · calc roundHalfEven x ≤ ⌊x⌋ + 1 := roundHalfEven_le x
      _ ≤ ⌊y⌋ := by omega
      _ ≤ roundHalfEven y := le_roundHalfEven y
  · have hfe : ⌊x⌋ = ⌊y⌋ := le_antisymm (Int.floor_le_floor h) hf
    have hfr : Int.fract x ≤ Int.fract y := by
      unfold Int.fract
      rw [hfe]
      linarith
    rcases lt_trichotomy (Int.fract x) (1/2 : ℚ) with h1 | h1 | h1
    · rw [roundHalfEven_of_fract_lt h1, hfe]
      exact le_roundHalfEven y
    · rcases lt_or_le (1/2 : ℚ) (Int.fract y) with h2 | h2
      · rw [roundHalfEven_of_lt_fract h2]
        calc roundHalfEven x ≤ ⌊x⌋ + 1 := roundHalfEven_le x
          _ = ⌊y⌋ + 1 := by omega
      · have h2' : Int.fract y = 1/2 := le_antisymm h2 (h1 ▸ hfr)
        have hxy : x = y := by
          have hfr' : Int.fract x = Int.fract y := by rw [h1, h2']
          calc x = (⌊x⌋ : ℚ) + Int.fract x := (Int.floor_add_fract x).symm
            _ = (⌊y⌋ : ℚ) + Int.fract y := by rw [hfe, hfr']
            _ = y := Int.floor_add_fract y
        rw [hxy]
    · rw [roundHalfEven_of_lt_fract h1, roundHalfEven_of_lt_fract (lt_of_lt_of_le h1 hfr), hfe]

theorem roundHalfEven_intCast (n : ℤ) : roundHalfEven (n : ℚ) = n := by
  rw [roundHalfEven_of_fract_lt (by rw [Int.fract_intCast]; norm_num)]
  exact Int.floor_intCast n

theorem roundDec_mono (d : ℕ) {x y : ℚ} (h : x ≤ y) : roundDec d x ≤ roundDec d y := by
  unfold roundDec
  have hp : (0 : ℚ) < (10 : ℚ) ^ d := by positivity
  have := roundHalfEven_mono (mul_le_mul_of_nonneg_right h (le_of_lt hp))
  exact (div_le_div_iff_of_pos_right hp).mpr (by exact_mod_cast this)

theorem roundDec_of_mul_eq_int {x : ℚ} {d : ℕ} (n : ℤ)
    (h : x * (10 : ℚ) ^ d = (n : ℚ)) : roundDec d x = x := by
  unfold roundDec
  rw [h, roundHalfEven_intCast, ← h]
  have hp : (0 : ℚ) < (10 : ℚ) ^ d := by positivity
  field_simp

theorem roundDec_qIsNat {x : ℚ} (d : ℕ) (h : qIsNat x) : roundDec d x = x := by
  obtain ⟨m, rfl⟩ := h
  exact roundDec_of_mul_eq_int (m * 10 ^ d) (by push_cast; ring)

theorem roundDec_of_fract_lt {x : ℚ} {d : ℕ}
    (h : Int.fract (x * (10 : ℚ) ^ d) < 1/2) :
    roundDec d x = (⌊x * (10 : ℚ) ^ d⌋ : ℚ) / (10 : ℚ) ^ d := by
  unfold roundDec
  rw [roundHalfEven_of_fract_lt h]

/-! ## C2: maturity level thresholds -/

/-- **C2.** The maturity-level mapping returns 5 iff `s ≥ 80`, 4 iff
`60 ≤ s < 80`, 3 iff `40 ≤ s < 60`, 2 iff `20 ≤ s < 40` and 1 otherwise; it
is monotone; and the adapter's `_score_to_maturity_level` and the core
scorer's `compute_maturity_level` realise the same table. -/
theorem maturity_level_thresholds :
    (∀ s : ℚ, computeMaturityLevel s = scoreToMaturityLevel s) ∧
    (∀ s : ℚ,
      (scoreToMaturityLevel s = 5 ↔ 80 ≤ s) ∧
      (scoreToMaturityLevel s = 4 ↔ 60 ≤ s ∧ s < 80) ∧
      (scoreToMaturityLevel s = 3 ↔ 40 ≤ s ∧ s < 60) ∧
      (scoreToMaturityLevel s = 2 ↔ 20 ≤ s ∧ s < 40) ∧
      (scoreToMaturityLevel s = 1 ↔ s < 20)) ∧
    (∀ s t : ℚ, s ≤ t → scoreToMaturityLevel s ≤ scoreToMaturityLevel t) := by
  refine ⟨fun s => ?_, fun s => ?_, fun s t h => ?_⟩
  · simp only [computeMaturityLevel, maturityThresholds, scanThresholds,
      scoreToMaturityLevel]
    split_ifs <;> first | rfl | omega | linarith
  · unfold scoreToMaturityLevel
    split_ifs <;>
      refine ⟨?_, ?_, ?_, ?_, ?_⟩ <;> constructor <;>
        intro hh <;> first | omega | linarith | (exact ⟨by linarith, by linarith⟩) |
          (exact absurd hh.2 (by linarith)) | (exact absurd hh.1 (by linarith)) |
          (exact absurd hh (by linarith))
  · unfold scoreToMaturityLevel
    split_ifs <;> first | omega | linarith

/-- Witness for C2 at concrete scores. -/
theorem maturity_level_thresholds_witness :
    scoreToMaturityLevel 30 ≤ scoreToMaturityLevel 85 :=
  maturity_level_thresholds.2.2 30 85 (by norm_num)

/-! ## C3: percentile interpolation fixed points -/

/-- **C3.** With strictly increasing positive quantiles, the adapter's
percentile interpolation returns exactly 25 at `p25`, 50 at `p50` and 75 at
`p75`; and with no benchmark data the core scorer's peer percentile is
exactly 50. -/
theorem percentile_fixed_points :
    (∀ q : Quantiles, 0 < q.p25 → q.p25 < q.p50 → q.p50 < q.p75 → q.p75 < q.p90 →
      interpolatePercentile q.p25 q = 25 ∧
      interpolatePercentile q.p50 q = 50 ∧
      interpolatePercentile q.p75 q = 75) ∧
    (∀ (score : ℚ) (industry : String),
      computePeerPercentile score industry [] = 50) := by
  constructor
  · intro q h0 h1 h2 h3
    refine ⟨?_, ?_, ?_⟩
    · rw [interpolatePercentile, if_pos le_rfl, if_pos h0,
        div_self (ne_of_gt h0)]
      norm_num
    · rw [interpolatePercentile, if_neg (not_le.mpr h1), if_pos le_rfl, if_pos h1,
        mul_div_assoc, div_self (sub_ne_zero.mpr (ne_of_gt h1))]
      norm_num
    · rw [interpolatePercentile, if_neg (not_le.mpr (h1.trans h2)),
        if_neg (not_le.mpr h2), if_pos le_rfl, if_pos h2,
        mul_div_assoc, div_self (sub_ne_zero.mpr (ne_of_gt h2))]
      norm_num
  · intro score industry
    rfl

/-- Witness for C3 at a concrete benchmark. -/
theorem percentile_fixed_points_witness :
    interpolatePercentile 30 ⟨30, 50, 60, 75⟩ = 25 ∧
    interpolatePercentile 50 ⟨30, 50, 60, 75⟩ = 50 ∧
    interpolatePercentile 60 ⟨30, 50, 60, 75⟩ = 75 :=
  percentile_fixed_points.1 ⟨30, 50, 60, 75⟩ (by norm_num) (by norm_num)
    (by norm_num) (by norm_num)

/-! ## C7: zero parallel streams -/

/-- **C7.** Contrary to the specified empty-timeline behaviour,
`generate_timeline` with `parallel_streams = 0` and a non-empty action list
raises `IndexError` (`stream_end_weeks[best_stream]` indexes an empty list);
with an empty action list it does return an empty timeline with
`duration_weeks = 0`, for zero and positive stream counts alike. -/
theorem generateTimeline_zero_streams :
    generateTimeline
      [{ id := "act-001", title := "Seed", dimension := "data",
         phase := "quick_wins", effort_weeks := 3, impact_score := 8 }] 0 =
      Except.error "IndexError: list assignment index out of range" ∧
    generateTimeline [] 0 = Except.ok ⟨[], 0⟩ ∧
    generateTimeline [] 3 = Except.ok ⟨[], 0⟩ := by
  have h0 : roundDec 1 (0 : ℚ) = 0 := roundDec_qIsNat 1 ⟨0, by norm_num⟩
  refine ⟨rfl, ?_, ?_⟩ <;>
    simp [generateTimeline, schedRun, listMaxD, List.replicate, h0]

/-! ## C4: peer-group selection cascade -/

theorem maxBySample_mem (b0 : Benchmark) (rest : List Benchmark) :
    maxBySample b0 rest = b0 ∨ maxBySample b0 rest ∈ rest := by
  induction rest generalizing b0 with
  | nil => exact Or.inl rfl
  | cons b rest ih =>
    rw [maxBySample, List.foldl_cons]
    rcases ih (if b0.sample_size < b.sample_size then b else b0) with h | h
    · rw [maxBySample] at h
      rw [h]
      split_ifs with hc
      · exact Or.inr (List.mem_cons_self b rest)
      · exact Or.inl rfl
    · rw [maxBySample] at h
      exact Or.inr (List.mem_cons_of_mem b h)

theorem maxBySample_le (b0 : Benchmark) (rest : List Benchmark) :
    b0.sample_size ≤ (maxBySample b0 rest).sample_size ∧
    ∀ b ∈ rest, b.sample_size ≤ (maxBySample b0 rest).sample_size := by
  induction rest generalizing b0 with
  | nil => exact ⟨le_refl _, by simp⟩
  | cons b rest ih =>
    rw [maxBySample, List.foldl_cons]
    obtain ⟨h1, h2⟩ := ih (if b0.sample_size < b.sample_size then b else b0)
    rw [maxBySample] at h1 h2
    refine ⟨?_, ?_⟩
    · refine le_trans ?_ h1
      split_ifs with hc
      · exact le_of_lt hc
      · exact le_refl _
    · intro c hc
      rcases List.mem_cons.mp hc with rfl | hc'
      · refine le_trans ?_ h1
        split_ifs with hcc
        · exact le_refl _
        · exact le_of_not_lt hcc
      · exact h2 c hc'

theorem mem_industryMatches_of_mem_exactMatches {industry size : String}
    {avail : List Benchmark} {b : Benchmark}
    (h : b ∈ exactMatches industry size avail) :
    b ∈ industryMatches industry avail := by
  unfold exactMatches at h
  unfold industryMatches
  rw [List.mem_filter] at h ⊢
  refine ⟨h.1, ?_⟩
  have := h.2
  simp only [Bool.and_eq_true] at this
  exact this.1

theorem selectPeerGroupIndustry_industry_case {industry : String}
    {avail : List Benchmark} {c0 : Benchmark} {crest : List Benchmark}
    (h : industryMatches industry avail = c0 :: crest) :
    (selectPeerGroupIndustry industry avail).match_quality = "industry_only" ∧
    ∃ sel, (selectPeerGroupIndustry industry avail).selected_benchmark = some sel ∧
      sel ∈ industryMatches industry avail ∧
      (∀ b ∈ industryMatches industry avail, b.sample_size ≤ sel.sample_size) ∧
      (selectPeerGroupIndustry industry avail).sample_size = sel.sample_size := by
  unfold selectPeerGroupIndustry
  rw [h]
  refine ⟨rfl, maxBySample c0 crest, rfl, ?_, ?_, rfl⟩
  · rcases maxBySample_mem c0 crest with hm | hm
    · rw [hm]; exact List.mem_cons_self c0 crest
    · exact List.mem_cons_of_mem c0 hm
  · intro b hb
    rcases List.mem_cons.mp hb with rfl | hb'
    · exact (maxBySample_le b crest).1
    · exact (maxBySample_le c0 crest).2 b hb'

/-- **C4 (amended).** The peer-group cascade: `exact` — selecting the
largest-sample exact match — whenever the *first* exact match reaches the
minimum sample size; otherwise `industry_only` with the largest-sample
industry match when one exists; otherwise `global_fallback` with the
largest-sample benchmark when the list is non-empty; otherwise the `none`
sentinel; and the result always carries one of the four tags. -/
theorem selectPeerGroup_tiers (industry size : String)
    (avail : List Benchmark) (minSize : ℕ) :
    (∀ b0 brest, exactMatches industry size avail = b0 :: brest →
      minSize ≤ b0.sample_size →
      (selectPeerGroup industry size avail minSize).match_quality = "exact" ∧
      ∃ sel, (selectPeerGroup industry size avail minSize).selected_benchmark = some sel ∧
        sel ∈ exactMatches industry size avail ∧
        (∀ b ∈ exactMatches industry size avail, b.sample_size ≤ sel.sample_size) ∧
        (selectPeerGroup industry size avail minSize).sample_size = sel.sample_size) ∧
    ((∀ b0 brest, exactMatches industry size avail = b0 :: brest →
        b0.sample_size < minSize) →
      ∀ c0 crest, industryMatches industry avail = c0 :: crest →
      (selectPeerGroup industry size avail minSize).match_quality = "industry_only" ∧
      ∃ sel, (selectPeerGroup industry size avail minSize).selected_benchmark = some sel ∧
        sel ∈ industryMatches industry avail ∧
        (∀ b ∈ industryMatches industry avail, b.sample_size ≤ sel.sample_size) ∧
        (selectPeerGroup industry size avail minSize).sample_size = sel.sample_size) ∧
    (industryMatches industry avail = [] → ∀ a0 arest, avail = a0 :: arest →
      (selectPeerGroup industry size avail minSize).match_quality = "global_fallback" ∧
      ∃ sel, (selectPeerGroup industry size avail minSize).selected_benchmark = some sel ∧
        sel ∈ avail ∧ (∀ b ∈ avail, b.sample_size ≤ sel.sample_size) ∧
        (selectPeerGroup industry size avail minSize).sample_size = sel.sample_size) ∧
    (avail = [] →
      selectPeerGroup industry size avail minSize =
        { selected_benchmark := none,
          peer_group_description := "No benchmark data available",
          match_quality := "none", sample_size := 0 }) ∧
    ((selectPeerGroup industry size avail minSize).match_quality = "exact" ∨
     (selectPeerGroup industry size avail minSize).match_quality = "industry_only" ∨
     (selectPeerGroup industry size avail minSize).match_quality = "global_fallback" ∨
     (selectPeerGroup industry size avail minSize).match_quality = "none") := by
  have hExNilOfIndNil : industryMatches industry avail = [] →
      exactMatches industry size avail = [] := by
    intro hind
    rcases hEx : exactMatches industry size avail with _ | ⟨b0, brest⟩
    · rfl
    · have : b0 ∈ industryMatches industry avail :=
        mem_industryMatches_of_mem_exactMatches
          (hEx ▸ List.mem_cons_self b0 brest)
      rw [hind] at this
      exact absurd this (List.not_mem_nil b0)
  have hGlobal : industryMatches industry avail = [] →
      ∀ a0 arest, avail = a0 :: arest →
      (selectPeerGroupIndustry industry avail).match_quality = "global_fallback" ∧
      ∃ sel, (selectPeerGroupIndustry industry avail).selected_benchmark = some sel ∧
        sel ∈ avail ∧ (∀ b ∈ avail, b.sample_size ≤ sel.sample_size) ∧
        (selectPeerGroupIndustry industry avail).sample_size = sel.sample_size := by
    intro hind a0 arest ha
    unfold selectPeerGroupIndustry
    rw [hind, ha]
    refine ⟨rfl, maxBySample a0 arest, rfl, ?_, ?_, rfl⟩
    · rcases maxBySample_mem a0 arest with hm | hm
      · rw [hm]; exact List.mem_cons_self a0 arest
      · exact List.mem_cons_of_mem a0 hm
    · intro b hb
      rcases List.mem_cons.mp hb with rfl | hb'
      · exact (maxBySample_le b arest).1
      · exact (maxBySample_le a0 arest).2 b hb'
  rcases hEx : exactMatches industry size avail with _ | ⟨b0, brest⟩
  · -- no exact match at all
    have hsel : selectPeerGroup industry size avail minSize =
        selectPeerGroupIndustry industry avail := by
      unfold selectPeerGroup
      rw [hEx]
    rw [hsel]
    refine ⟨?_, ?_, ?_, ?_, ?_⟩
    · intro b0 brest hcontra
      exact absurd hcontra (by simp)
    · intro _ c0 crest hind
      exact selectPeerGroupIndustry_industry_case hind
    · intro hind a0 arest hav
      exact hav ▸ hGlobal hind a0 arest hav
    · intro hnil
      subst hnil
      rfl
    · rcases hInd : industryMatches industry avail with _ | ⟨c0, crest⟩
      · rcases hav : avail with _ | ⟨a0, arest⟩
        · subst hav
          exact Or.inr (Or.inr (Or.inr rfl))
        · exact Or.inr (Or.inr (Or.inl (hav ▸ (hGlobal hInd a0 arest hav).1)))
      · exact Or.inr (Or.inl (selectPeerGroupIndustry_industry_case hInd).1)
  · -- the exact-match list is b0 :: brest
    by_cases hmin : minSize ≤ b0.sample_size
    · have hsel : selectPeerGroup industry size avail minSize =
          { selected_benchmark := some (maxBySample b0 brest)
            peer_group_description := industry ++ " / " ++ size
            match_quality := "exact"
            sample_size := (maxBySample b0 brest).sample_size } := by
        unfold selectPeerGroup
        rw [hEx]
        exact if_pos hmin
      refine ⟨?_, ?_, ?_, ?_, ?_⟩
      · intro b0' brest' hEq hmin'
        injection hEq with h1 h2
        subst h1; subst h2
        rw [hsel]
        refine ⟨rfl, maxBySample b0 brest, rfl, ?_, ?_, rfl⟩
        · rcases maxBySample_mem b0 brest with hm | hm
          · rw [hm]; exact List.mem_cons_self b0 brest
          · exact List.mem_cons_of_mem b0 hm
        · intro b hb
          rcases List.mem_cons.mp hb with rfl | hb'
          · exact (maxBySample_le b brest).1
          · exact (maxBySample_le b0 brest).2 b hb'
      · intro hfail
        exact absurd hmin (not_le.mpr (hfail b0 brest rfl))
      · intro hind
        have hcontra := hExNilOfIndNil hind
        rw [hEx] at hcontra
        exact absurd hcontra (by simp)
      · intro hnil
        rw [hnil] at hEx
        have hnil' : exactMatches industry size [] = [] := rfl
        rw [hnil'] at hEx
        exact absurd hEx (by simp)
      · rw [hsel]
        exact Or.inl rfl
    · have hsel : selectPeerGroup industry size avail minSize =
          selectPeerGroupIndustry industry avail := by
        unfold selectPeerGroup
        rw [hEx]
        exact if_neg hmin
      rw [hsel]
      refine ⟨?_, ?_, ?_, ?_, ?_⟩
      · intro b0' brest' hEq hmin'
        injection hEq with h1 h2
        subst h1
        exact absurd hmin' hmin
      · intro _ c0 crest hind
        exact selectPeerGroupIndustry_industry_case hind
      · intro hind a0 arest hav
        exact hav ▸ hGlobal hind a0 arest hav
      · intro hnil
        rw [hnil] at hEx
        have hnil' : exactMatches industry size [] = [] := rfl
        rw [hnil'] at hEx
        exact absurd hEx (by simp)
      · rcases hInd : industryMatches industry avail with _ | ⟨c0, crest⟩
        · have hcontra := hExNilOfIndNil hInd
          rw [hEx] at hcontra
          exact absurd hcontra (by simp)
        · exact Or.inr (Or.inl (selectPeerGroupIndustry_industry_case hInd).1)

/-- Counterexample to C4 as stated: a benchmark matching industry and size
with sample size 100 ≥ 10 exists, yet the result is `industry_only`, because
only the *first* exact match (sample 5) is tested against the minimum. -/
theorem selectPeerGroup_first_match_counterexample :
    (selectPeerGroup "fin" "ent"
      [{ industry := "fin", organization_size := "ent", sample_size := 5 },
       { industry := "fin", organization_size := "ent", sample_size := 100 }]
      10).match_quality = "industry_only" ∧
    ({ industry := "fin", organization_size := "ent", sample_size := 100 } :
        Benchmark) ∈
      ([{ industry := "fin", organization_size := "ent", sample_size := 5 },
        { industry := "fin", organization_size := "ent", sample_size := 100 }] :
        List Benchmark) ∧
    ({ industry := "fin", organization_size := "ent", sample_size := 100 } :
        Benchmark).industry = "fin" ∧
    ({ industry := "fin", organization_size := "ent", sample_size := 100 } :
        Benchmark).organization_size = "ent" ∧
    10 ≤ ({ industry := "fin", organization_size := "ent", sample_size := 100 } :
        Benchmark).sample_size := by
  refine ⟨?_, by simp, rfl, rfl, by norm_num⟩
  decide

/-- Witness for C4 exercising every tier of the cascade at concrete inputs. -/
theorem selectPeerGroup_tiers_witness :
    (selectPeerGroup "fin" "ent"
      [{ industry := "fin", organization_size := "ent", sample_size := 50 }]
      10).match_quality = "exact" ∧
    (selectPeerGroup "fin" "ent"
      [{ industry := "fin", organization_size := "smb", sample_size := 50 }]
      10).match_quality = "industry_only" ∧
    (selectPeerGroup "fin" "ent"
      [{ industry := "tech", organization_size := "smb", sample_size := 50 }]
      10).match_quality = "global_fallback" ∧
    (selectPeerGroup "fin" "ent" [] 10).match_quality = "none" := by
  refine ⟨?_, ?_, ?_, ?_⟩
  · exact ((selectPeerGroup_tiers "fin" "ent"
      [{ industry := "fin", organization_size := "ent", sample_size := 50 }] 10).1
      { industry := "fin", organization_size := "ent", sample_size := 50 } []
      (by decide) (by norm_num)).1
  · refine ((selectPeerGroup_tiers "fin" "ent"
      [{ industry := "fin", organization_size := "smb", sample_size := 50 }] 10).2.1
      ?_
      { industry := "fin", organization_size := "smb", sample_size := 50 } []
      (by decide)).1
    intro b0 brest h
    have hnil : exactMatches "fin" "ent"
        [{ industry := "fin", organization_size := "smb", sample_size := 50 }] = [] := by
      decide
    rw [hnil] at h
    exact absurd h.symm (List.cons_ne_nil b0 brest)
  · exact ((selectPeerGroup_tiers "fin" "ent"
      [{ industry := "tech", organization_size := "smb", sample_size := 50 }] 10).2.2.1
      (by decide)
      { industry := "tech", organization_size := "smb", sample_size := 50 } [] rfl).1
  · rw [(selectPeerGroup_tiers "fin" "ent" [] 10).2.2.2.1 rfl]

/-! ## C5: improvement-priority scoring -/

theorem assignRanksFrom_map_fields : ∀ (n : ℕ) (l : List PriorityRec),
    (assignRanksFrom n l).map priorityFields = l.map priorityFields
  | _, [] => rfl
  | n, p :: rest => by
    simp only [assignRanksFrom, List.map_cons, List.cons.injEq]
    exact ⟨rfl, assignRanksFrom_map_fields (n + 1) rest⟩

theorem assignRanksFrom_map_score : ∀ (n : ℕ) (l : List PriorityRec),
    (assignRanksFrom n l).map (fun r => r.priority_score) =
      l.map (fun r => r.priority_score)
  | _, [] => rfl
  | n, p :: rest => by
    simp only [assignRanksFrom, List.map_cons, List.cons.injEq]
    exact ⟨trivial, assignRanksFrom_map_score (n + 1) rest⟩

theorem assignRanksFrom_length : ∀ (n : ℕ) (l : List PriorityRec),
    (assignRanksFrom n l).length = l.length
  | _, [] => rfl
  | n, p :: rest => by
    simp only [assignRanksFrom, List.length_cons, assignRanksFrom_length (n + 1) rest]

theorem assignRanksFrom_map_rank : ∀ (n : ℕ) (l : List PriorityRec),
    (assignRanksFrom n l).map (fun r => r.priority_rank) = List.range' n l.length
  | _, [] => rfl
  | n, p :: rest => by
    simp only [assignRanksFrom, List.map_cons, List.length_cons, List.range'_succ,
      List.cons.injEq]
    exact ⟨trivial, assignRanksFrom_map_rank (n + 1) rest⟩

theorem priorityFields_mkPriority (scores : List (String × ℚ)) (g : GapRec) :
    priorityFields (mkPriority scores g) = specPriorityTuple scores g := rfl

/-- **C5 (amended).** `score_improvement_priorities` records, per gap entry,
`impact_score` and `effort_score` rounded to 4 decimals from
`min(1, gap/40)` and `difficulty × (1 − min(1, score/100))`, and
`priority_score = round₄(impact / max(effort, 0.1))` computed from the
unrounded values; `is_quick_win` iff `gap ≤ 15` and unrounded
`effort ≤ 0.40` and severity is medium or low; the people and governance
difficulty weights strictly exceed the data, process and technology weights;
the output is sorted descending by `priority_score` and carries ranks
1, 2, 3, … in that order. -/
theorem scoreImprovementPriorities_spec (gaps : List GapRec)
    (scores : List (String × ℚ)) :
    ((scoreImprovementPriorities gaps scores).map priorityFields).Perm
      (gaps.map (specPriorityTuple scores)) ∧
    ((scoreImprovementPriorities gaps scores).map
      (fun r => r.priority_score)).Pairwise (fun x y => y ≤ x) ∧
    (scoreImprovementPriorities gaps scores).map (fun r => r.priority_rank) =
      List.range' 1 (scoreImprovementPriorities gaps scores).length ∧
    (difficultyWeight "data" < difficultyWeight "people" ∧
     difficultyWeight "process" < difficultyWeight "people" ∧
     difficultyWeight "technology" < difficultyWeight "people" ∧
     difficultyWeight "data" < difficultyWeight "governance" ∧
     difficultyWeight "process" < difficultyWeight "governance" ∧
     difficultyWeight "technology" < difficultyWeight "governance") := by
  refine ⟨?_, ?_, ?_, ?_⟩
  · rw [scoreImprovementPriorities, assignRanksFrom_map_fields]
    refine ((List.mergeSort_perm (gaps.map (mkPriority scores)) _).map
      priorityFields).trans ?_
    rw [List.map_map]
    exact List.Perm.of_eq
      (List.map_congr_left (fun g _ => priorityFields_mkPriority scores g))
  · rw [scoreImprovementPriorities, assignRanksFrom_map_score]
    rw [List.pairwise_map]
    have hs := @List.sorted_mergeSort PriorityRec
      (fun a b : PriorityRec => decide (b.priority_score ≤ a.priority_score))
      (by intro a b c h1 h2; simp only [decide_eq_true_eq] at *; linarith)
      (by intro a b; simp only [Bool.or_eq_true, decide_eq_true_eq]; exact le_total _ _)
      (gaps.map (mkPriority scores))
    exact hs.imp (by intro a b hh; simpa using hh)
  · rw [scoreImprovementPriorities, assignRanksFrom_map_rank, assignRanksFrom_length]
  · have hda : difficultyWeight "data" = 0.6 := by
      rw [difficultyWeight, if_pos rfl]
    have hpr : difficultyWeight "process" = 0.5 := by
      rw [difficultyWeight, if_neg (by decide), if_pos rfl]
    have hpe : difficultyWeight "people" = 0.8 := by
      rw [difficultyWeight, if_neg (by decide), if_neg (by decide), if_pos rfl]
    have hte : difficultyWeight "technology" = 0.5 := by
      rw [difficultyWeight, if_neg (by decide), if_neg (by decide),
        if_neg (by decide), if_pos rfl]
    have hgo : difficultyWeight "governance" = 0.7 := by
      rw [difficultyWeight, if_neg (by decide), if_neg (by decide),
        if_neg (by decide), if_neg (by decide), if_pos rfl]
    rw [hda, hpr, hpe, hte, hgo]
    norm_num

/-- Counterexample to C5 as stated: for `gap_size = 1/2500` the stored
`impact_score` is the 4-decimal rounding `0.0`, not `min(1, gap/40) =
0.00001`. -/
theorem scoreImprovementPriorities_rounding_counterexample :
    (scoreImprovementPriorities
      [{ dimension := "data", gap_size := 1/2500, severity := "low" }] []).map
      (fun r => r.impact_score) = [0] ∧
    min 1 ((1/2500 : ℚ) / 40) ≠ (0 : ℚ) := by
  constructor
  · rw [scoreImprovementPriorities]
    simp only [List.map_cons, List.map_nil, List.mergeSort_singleton]
    rw [assignRanksFrom, assignRanksFrom]
    simp only [List.map_cons, List.map_nil, List.cons.injEq, and_true]
    show roundDec 4 (min 1 ((1/2500 : ℚ) / 40)) = 0
    have hmin : min 1 ((1/2500 : ℚ) / 40) = 1/100000 := by
      rw [min_eq_right (by norm_num)]
      norm_num
    rw [hmin, roundDec_of_fract_lt (by unfold Int.fract; norm_num)]
    norm_num
  · rw [min_eq_right (by norm_num)]
    norm_num

/-! ## C6 and C8: gap-to-action mapping -/

theorem mkSeqFrom_append : ∀ (xs ys : List (String × ℚ × ActionTemplate)) (c : ℕ),
    mkSeqFrom c (xs ++ ys) = mkSeqFrom c xs ++ mkSeqFrom (c + xs.length) ys
  | [], ys, c => by simp [mkSeqFrom]
  | x :: xs, ys, c => by
    rw [List.cons_append, mkSeqFrom, mkSeqFrom, mkSeqFrom_append xs ys (c + 1),
      List.length_cons, List.cons_append]
    rw [show c + (xs.length + 1) = c + 1 + xs.length from by omega]

theorem buildFromTemplates_eq (d : String) (g hw : ℚ) (cap : ℕ) :
    ∀ (ts : List ActionTemplate) (c : ℕ),
    buildFromTemplates d g hw cap ts c =
      (mkSeqFrom c (((ts.filter (keepTemplate hw)).map (fun t => (d, g, t))).take (cap - c)),
       c + (((ts.filter (keepTemplate hw)).map (fun t => (d, g, t))).take (cap - c)).length)
  | [], c => by simp [buildFromTemplates, mkSeqFrom]
  | t :: ts, c => by
    by_cases hc : cap ≤ c
    · have h0 : cap - c = 0 := Nat.sub_eq_zero_of_le hc
      rw [buildFromTemplates, if_pos hc, h0]
      simp [mkSeqFrom]
    · by_cases hk : keepTemplate hw t
      · have hsub : cap - c = (cap - (c + 1)) + 1 := by omega
        simp only [buildFromTemplates, if_neg hc, if_pos hk,
          List.filter_cons_of_pos hk, List.map_cons, hsub, List.take_succ_cons,
          mkSeqFrom, buildFromTemplates_eq d g hw cap ts (c + 1),
          List.length_cons, Prod.mk.injEq, true_and]
        omega
      · rw [buildFromTemplates, if_neg hc, if_neg hk,
          List.filter_cons_of_neg hk, buildFromTemplates_eq d g hw cap ts c]

theorem buildFromDims_eq (lib : List (String × List ActionTemplate)) (hw : ℚ)
    (cap : ℕ) : ∀ (dims : List (String × ℚ)) (c : ℕ),
    buildFromDims lib hw cap dims c =
      mkSeqFrom c ((candidatesFrom lib hw dims).take (cap - c))
  | [], c => by simp [buildFromDims, candidatesFrom, mkSeqFrom]
  | (d, g) :: dims, c => by
    by_cases hc : cap ≤ c
    · have h0 : cap - c = 0 := Nat.sub_eq_zero_of_le hc
      rw [buildFromDims, if_pos hc, h0]
      simp [mkSeqFrom]
    · simp only [buildFromDims, if_neg hc,
        buildFromTemplates_eq d g hw cap (libGet lib d) c,
        buildFromDims_eq lib hw cap dims, candidatesFrom, List.flatMap_cons,
        List.take_append_eq_append_take, mkSeqFrom_append, List.length_take]
      rw [show ∀ L : ℕ, cap - (c + min (cap - c) L) = cap - c - L from
        fun L => by omega]

/-- **C6 (amended).** The actions returned by `map_gaps_to_actions` are
exactly the first `cap` candidates, taken over positive-gap dimensions in
gap-descending order, whose templates survive the horizon filter — where a
template is excluded iff `effort_weeks × 1.2` exceeds
`horizon_weeks = horizon_months × 4.33` *and* its phase is not
`"quick_wins"` (quick-wins templates are horizon-exempt). -/
theorem mapGapsToActions_horizon_filter (lib : List (String × List ActionTemplate))
    (gap_items : List GapItem) (horizon_months cap : ℕ) :
    (mapGapsToActions lib gap_items horizon_months cap).actions =
      mkSeqFrom 0 ((candidatesFrom lib ((horizon_months : ℚ) * 4.33)
        (sortedGapDims gap_items)).take cap) ∧
    (∀ (hw : ℚ) (t : ActionTemplate),
      keepTemplate hw t = true ↔ (t.effort_weeks * 1.2 ≤ hw ∨ t.phase = "quick_wins")) := by
  constructor
  · rw [mapGapsToActions]
    simp only [buildFromDims_eq, Nat.sub_zero]
  · intro hw t
    by_cases h1 : hw < t.effort_weeks * 1.2 <;> by_cases h2 : t.phase = "quick_wins"
    · simp [keepTemplate, h1, h2]
    · simp [keepTemplate, h1, h2, not_le.mpr h1]
    · simp [keepTemplate, h1, h2, not_lt.mp h1]
    · simp [keepTemplate, h1, h2, not_lt.mp h1]

/-- Counterexample to C6 as stated: a foundation-phase template of effort 4
weeks fits a 1-month horizon (4 ≤ 4.33) with the cap unreached, yet it is
excluded, because the code tests `effort_weeks * 1.2 > horizon_weeks`. -/
theorem mapGapsToActions_horizon_counterexample :
    (mapGapsToActions
      [("data", [{ title := "T", description := "D", effort_weeks := 4,
                   impact_score := 5, phase := "foundation" }])]
      [{ dimension := "data", gap_to_best_in_class := 10 }] 1 20).actions = [] ∧
    (4 : ℚ) ≤ (1 : ℚ) * 4.33 ∧ 0 < 20 := by
  refine ⟨?_, by norm_num, by norm_num⟩
  have hsort : sortedGapDims [{ dimension := "data", gap_to_best_in_class := 10 }] =
      [("data", (10 : ℚ))] := by
    rw [sortedGapDims, collectDimensionGaps]
    simp [gapsUpsert]
  have hk : keepTemplate (((1 : ℕ) : ℚ) * 4.33)
      { title := "T", description := "D", effort_weeks := 4,
        impact_score := 5, phase := "foundation" } = false := by
    rw [keepTemplate]
    simp only [Bool.not_eq_false', Bool.and_eq_true, decide_eq_true_eq,
      Bool.not_eq_true', beq_eq_false_iff_ne, ne_eq]
    constructor
    · push_cast
      norm_num
    · decide
  rw [mapGapsToActions]
  simp only [hsort, buildFromDims_eq, Nat.sub_zero, candidatesFrom,
    List.flatMap_cons, List.flatMap_nil]
  rw [show libGet
      [("data", [{ title := "T", description := "D", effort_weeks := 4,
                   impact_score := 5, phase := "foundation" }])] "data" =
      [{ title := "T", description := "D", effort_weeks := 4,
         impact_score := 5, phase := "foundation" }] from rfl]
  rw [List.filter_cons_of_neg (by rw [hk]; exact Bool.false_ne_true)]
  simp [mkSeqFrom]

theorem libGet_eq_nil {lib : List (String × List ActionTemplate)} {d : String}
    (hd : ∀ p ∈ lib, p.1 ≠ d) : libGet lib d = [] := by
  unfold libGet
  rw [List.find?_eq_none.mpr]
  · rfl
  · intro p hp
    simpa using hd p hp

theorem mem_mkSeqFrom {a : MappedAction} :
    ∀ {l : List (String × ℚ × ActionTemplate)} {c : ℕ}, a ∈ mkSeqFrom c l →
    ∃ x ∈ l, ∃ k, a = mkMappedAction x.1 x.2.1 x.2.2 k
  | [], _, h => absurd h (List.not_mem_nil a)
  | x :: xs, c, h => by
    rw [mkSeqFrom] at h
    rcases List.mem_cons.mp h with rfl | h'
    · exact ⟨x, List.mem_cons_self x xs, c, rfl⟩
    · obtain ⟨y, hy, k, hk⟩ := mem_mkSeqFrom h'
      exact ⟨y, List.mem_cons_of_mem x hy, k, hk⟩

/-- **C8 (amended).** `map_gaps_to_actions` does not raise for a positive-gap
dimension absent from the action-template library: the dimension is silently
skipped (`self._library.get(dimension, [])`), contributing no actions. -/
theorem mapGapsToActions_missing_dimension
    (lib : List (String × List ActionTemplate)) (gap_items : List GapItem)
    (horizon_months cap : ℕ) (d : String) (hd : ∀ p ∈ lib, p.1 ≠ d) :
    ∀ a ∈ (mapGapsToActions lib gap_items horizon_months cap).actions,
      a.dimension ≠ d := by
  intro a ha
  rw [mapGapsToActions] at ha
  simp only [buildFromDims_eq, Nat.sub_zero] at ha
  obtain ⟨x, hx, k, rfl⟩ := mem_mkSeqFrom ha
  have hx' : x ∈ candidatesFrom lib ((horizon_months : ℚ) * 4.33)
      (sortedGapDims gap_items) := List.take_subset _ _ hx
  rw [candidatesFrom, List.mem_flatMap] at hx'
  obtain ⟨p, _, hmem⟩ := hx'
  rw [List.mem_map] at hmem
  obtain ⟨t, ht, rfl⟩ := hmem
  show p.1 ≠ d
  intro hpd
  rw [hpd, libGet_eq_nil hd] at ht
  exact absurd (List.mem_of_mem_filter ht) (List.not_mem_nil t)

/-- Counterexample to C8 as stated: with an empty library and a positive gap
for dimension "custom", `map_gaps_to_actions` returns normally with an empty
action list instead of raising. -/
theorem mapGapsToActions_missing_dimension_counterexample :
    mapGapsToActions [] [{ dimension := "custom", gap_to_best_in_class := 10 }]
      12 20 =
      { actions := [], total_actions_count := 0, horizon_months := 12 } := by
  have hsort : sortedGapDims [{ dimension := "custom", gap_to_best_in_class := 10 }] =
      [("custom", (10 : ℚ))] := by
    rw [sortedGapDims, collectDimensionGaps]
    simp [gapsUpsert]
  rw [mapGapsToActions]
  simp [hsort, buildFromDims, buildFromTemplates, libGet]

/-- Witness for C8 at a concrete library and gap set. -/
theorem mapGapsToActions_missing_dimension_witness :
    (mapGapsToActions
      [("data", [{ title := "T", description := "D", effort_weeks := 3,
                   impact_score := 7, phase := "quick_wins" }])]
      [{ dimension := "data", gap_to_best_in_class := 5 }] 12 20).actions.all
      (fun a => !(a.dimension == "custom")) = true :=
  List.all_eq_true.mpr (fun a ha => by
    have h := mapGapsToActions_missing_dimension
      [("data", [{ title := "T", description := "D", effort_weeks := 3,
                   impact_score := 7, phase := "quick_wins" }])]
      [{ dimension := "data", gap_to_best_in_class := 5 }] 12 20 "custom"
      (by
        intro p hp
        rcases List.mem_cons.mp hp with rfl | hnil
        · decide
        · exact absurd hnil (List.not_mem_nil p))
      a ha
    simpa using h)

/-! ## Scheduler lemmas (for C1 and C9) -/

theorem chooseStreamGo_isSome (e : ℚ) :
    ∀ (l : List ℚ) (idx : ℕ) (p : ℕ × ℚ),
    ∃ q, chooseStreamGo e l idx (some p) = some q
  | [], _, p => ⟨p, rfl⟩
  | c :: rest, idx, p => by
    simp only [chooseStreamGo]
    rcases p with ⟨bi, bs⟩
    by_cases hlt : max c e < bs
    · simpa [hlt] using chooseStreamGo_isSome e rest (idx + 1) (idx, max c e)
    · simpa [hlt] using chooseStreamGo_isSome e rest (idx + 1) (bi, bs)

theorem chooseStream_isSome {streams : List ℚ} (h : streams ≠ []) (e : ℚ) :
    ∃ q, chooseStream streams e = some q := by
  rcases streams with _ | ⟨c, rest⟩
  · exact absurd rfl h
  · simp only [chooseStream, chooseStreamGo]
    exact chooseStreamGo_isSome e rest 1 (0, max c e)

theorem chooseStreamGo_prop (e : ℚ) (P : ℕ → ℚ → Prop) :
    ∀ (l : List ℚ) (idx : ℕ) (acc : Option (ℕ × ℚ)),
    (∀ bi bs, acc = some (bi, bs) → P bi bs) →
    (∀ k, k < l.length → P (idx + k) (max (l.getD k 0) e)) →
    ∀ b s, chooseStreamGo e l idx acc = some (b, s) → P b s
  | [], idx, acc, hacc, _, b, s, hgo => hacc b s hgo
  | c :: rest, idx, acc, hacc, hall, b, s, hgo => by
    simp only [chooseStreamGo] at hgo
    have hhead : P idx (max c e) := by
      have := hall 0 (by simp)
      simpa using this
    have htail : ∀ k, k < rest.length → P (idx + 1 + k) (max (rest.getD k 0) e) := by
      intro k hk
      have := hall (k + 1) (by simpa using hk)
      have harith : idx + (k + 1) = idx + 1 + k := by omega
      rw [harith] at this
      simpa using this
    rcases acc with _ | ⟨bi, bs⟩
    · refine chooseStreamGo_prop e P rest (idx + 1) _ ?_ htail b s hgo
      intro bi' bs' hsome
      simp only [Option.some.injEq, Prod.mk.injEq] at hsome
      obtain ⟨h1, h2⟩ := hsome
      rw [← h1, ← h2]
      exact hhead
    · by_cases hlt : max c e < bs
      · refine chooseStreamGo_prop e P rest (idx + 1) _ ?_ htail b s
          (by simpa [hlt] using hgo)
        intro bi' bs' hsome
        simp only [Option.some.injEq, Prod.mk.injEq] at hsome
        obtain ⟨h1, h2⟩ := hsome
        rw [← h1, ← h2]
        exact hhead
      · refine chooseStreamGo_prop e P rest (idx + 1) _ ?_ htail b s
          (by simpa [hlt] using hgo)
        intro bi' bs' hsome
        simp only [Option.some.injEq, Prod.mk.injEq] at hsome
        obtain ⟨h1, h2⟩ := hsome
        rw [← h1, ← h2]
        exact hacc bi bs rfl

theorem chooseStream_spec {streams : List ℚ} {e : ℚ} {b : ℕ} {s : ℚ}
    (h : chooseStream streams e = some (b, s)) :
    b < streams.length ∧ s = max (streams.getD b 0) e := by
  refine chooseStreamGo_prop e
    (fun b s => b < streams.length ∧ s = max (streams.getD b 0) e)
    streams 0 none (by intro bi bs hh; cases hh) ?_ b s h
  intro k hk
  simpa using hk

theorem le_foldl_max (f : String → ℚ) :
    ∀ (l : List String) (x : ℚ), x ≤ l.foldl (fun acc p => max acc (f p)) x
  | [], _ => le_refl _
  | p :: rest, x =>
    le_trans (le_max_left x (f p)) (le_foldl_max f rest (max x (f p)))

theorem foldl_max_of_mem (f : String → ℚ) :
    ∀ {l : List String} {p : String}, p ∈ l →
    ∀ (x : ℚ), f p ≤ l.foldl (fun acc q => max acc (f q)) x := by
  intro l
  induction l with
  | nil => intro p hp; exact absurd hp (List.not_mem_nil p)
  | cons q rest ih =>
    intro p hp x
    rcases List.mem_cons.mp hp with rfl | hp'
    · exact le_trans (le_max_right x (f p)) (le_foldl_max f rest (max x (f p)))
    · exact ih hp' (max x (f q))

theorem foldl_max_qIsNat (f : String → ℚ) :
    ∀ (l : List String) (x : ℚ), qIsNat x → (∀ p ∈ l, qIsNat (f p)) →
    qIsNat (l.foldl (fun acc q => max acc (f q)) x)
  | [], _, hx, _ => hx
  | p :: rest, x, hx, hl => by
    refine foldl_max_qIsNat f rest (max x (f p)) ?_ ?_
    · obtain ⟨m, rfl⟩ := hx
      obtain ⟨k, hk⟩ := hl p (List.mem_cons_self p rest)
      rw [hk]
      exact ⟨max m k, by rw [Nat.cast_max m k]⟩
    · exact fun q hq => hl q (List.mem_cons_of_mem p hq)

theorem alistGetQ_cons (p : String × ℚ) (rest : List (String × ℚ)) (k : String) :
    alistGetQ (p :: rest) k = if p.1 = k then p.2 else alistGetQ rest k := by
  by_cases h : p.1 = k
  · rw [alistGetQ, List.find?_cons_of_pos _ (by simpa using h), if_pos h]
    rfl
  · rw [alistGetQ, List.find?_cons_of_neg _ (by simpa using h), if_neg h]
    rfl

theorem alistSetQ_cons (p : String × ℚ) (rest : List (String × ℚ)) (k : String)
    (v : ℚ) :
    alistSetQ (p :: rest) k v =
      if p.1 = k then (k, v) :: rest else p :: alistSetQ rest k v := by
  simp only [alistSetQ, beq_iff_eq]

theorem alistGetQ_set_self (l : List (String × ℚ)) (k : String) (v : ℚ) :
    alistGetQ (alistSetQ l k v) k = v := by
  induction l with
  | nil =>
    show alistGetQ [(k, v)] k = v
    rw [alistGetQ_cons]
    simp
  | cons p rest ih =>
    rw [alistSetQ_cons]
    by_cases hk : p.1 = k
    · rw [if_pos hk, alistGetQ_cons]
      simp
    · rw [if_neg hk, alistGetQ_cons, if_neg hk]
      exact ih

theorem alistGetQ_set_ne (l : List (String × ℚ)) (k k' : String) (v : ℚ)
    (h : k' ≠ k) : alistGetQ (alistSetQ l k v) k' = alistGetQ l k' := by
  induction l with
  | nil =>
    show alistGetQ [(k, v)] k' = alistGetQ [] k'
    rw [alistGetQ_cons, if_neg (by simpa using fun hh => h hh.symm)]
  | cons p rest ih =>
    rw [alistSetQ_cons]
    by_cases hk : p.1 = k
    · rw [if_pos hk, alistGetQ_cons, if_neg (by simpa using fun hh => h hh.symm),
        alistGetQ_cons, if_neg (by rw [hk]; exact fun hh => h hh.symm)]
    · rw [if_neg hk, alistGetQ_cons, alistGetQ_cons, ih]

theorem mem_alistSetQ {l : List (String × ℚ)} {k : String} {v : ℚ} :
    ∀ {p : String × ℚ}, p ∈ alistSetQ l k v → p = (k, v) ∨ p ∈ l := by
  induction l with
  | nil =>
    intro p hp
    simp only [alistSetQ] at hp
    exact Or.inl (List.mem_singleton.mp hp)
  | cons q rest ih =>
    intro p hp
    simp only [alistSetQ] at hp
    split at hp
    · rcases List.mem_cons.mp hp with rfl | hp'
      · exact Or.inl rfl
      · exact Or.inr (List.mem_cons_of_mem q hp')
    · rcases List.mem_cons.mp hp with rfl | hp'
      · exact Or.inr (List.mem_cons_self _ _)
      · rcases ih hp' with h | h
        · exact Or.inl h
        · exact Or.inr (List.mem_cons_of_mem q h)

theorem alistGetQ_qIsNat {l : List (String × ℚ)} (hl : ∀ p ∈ l, qIsNat p.2)
    (k : String) : qIsNat (alistGetQ l k) := by
  unfold alistGetQ
  rcases hf : l.find? (fun p => p.1 == k) with _ | p
  · rw [hf]
    exact ⟨0, by simp⟩
  · rw [hf]
    simpa using hl p (List.mem_of_find?_eq_some hf)

theorem getD_set_self : ∀ (l : List ℚ) (b : ℕ) (v : ℚ), b < l.length →
    (l.set b v).getD b 0 = v
  | [], b, v, h => absurd h (by simp)
  | c :: rest, 0, v, _ => rfl
  | c :: rest, b + 1, v, h => getD_set_self rest b v (by simpa using h)

theorem getD_set_ne : ∀ (l : List ℚ) (b i : ℕ) (v : ℚ), i ≠ b →
    (l.set b v).getD i 0 = l.getD i 0
  | [], _, _, _, _ => by simp
  | c :: rest, 0, 0, v, h => absurd rfl h
  | c :: rest, 0, i + 1, v, _ => rfl
  | c :: rest, b + 1, 0, v, _ => rfl
  | c :: rest, b + 1, i + 1, v, h =>
    getD_set_ne rest b i v (fun hh => h (by omega))

theorem entries_dim_getD :
    ∀ (l : List TimelineEntry) (i : ℕ),
    (l.map (fun e => e.dimension)).getD i "" = (l.getD i default).dimension
  | [], _ => rfl
  | a :: l, 0 => rfl
  | a :: l, i + 1 => entries_dim_getD l i

theorem actions_dim_getD :
    ∀ (l : List PlanAction) (i : ℕ),
    (l.map (fun a => a.dimension)).getD i "" = (l.getD i default).dimension
  | [], _ => rfl
  | a :: l, 0 => rfl
  | a :: l, i + 1 => actions_dim_getD l i

theorem getDQ_qIsNat {l : List ℚ} (hl : ∀ c ∈ l, qIsNat c) (i : ℕ) :
    qIsNat (l.getD i 0) := by
  rcases lt_or_le i l.length with h | h
  · rw [List.getD_eq_getElem l 0 h]
    exact hl _ (List.getElem_mem h)
  · rw [List.getD_eq_default l 0 h]
    exact ⟨0, by simp⟩

theorem qIsNat_max {x y : ℚ} (hx : qIsNat x) (hy : qIsNat y) : qIsNat (max x y) := by
  obtain ⟨m, rfl⟩ := hx
  obtain ⟨k, rfl⟩ := hy
  exact ⟨max m k, by rw [Nat.cast_max m k]⟩

theorem qIsNat_add {x y : ℚ} (hx : qIsNat x) (hy : qIsNat y) : qIsNat (x + y) := by
  obtain ⟨m, rfl⟩ := hx
  obtain ⟨k, rfl⟩ := hy
  exact ⟨m + k, by push_cast; ring⟩

theorem schedStep_elim {st : SchedState} {a : PlanAction} {st' : SchedState}
    (h : schedStep st a = Except.ok st') :
    ∃ b s, chooseStream st.streams (earliestOf st a) = some (b, s) ∧
      st' = stepState st a b s := by
  unfold schedStep at h
  rcases hm : chooseStream st.streams (earliestOf st a) with _ | ⟨b, s⟩
  · rw [hm] at h
    simp at h
  · rw [hm] at h
    injection h with h'
    exact ⟨b, s, rfl, h'.symm⟩

theorem earliestOf_nonneg (st : SchedState) (a : PlanAction) :
    0 ≤ earliestOf st a :=
  le_foldl_max _ _ 0

theorem dimComp_le_earliestOf {st : SchedState} {a : PlanAction} {p : String}
    (hp : p ∈ dimDeps a.dimension) :
    alistGetQ st.dimComp p ≤ earliestOf st a :=
  foldl_max_of_mem _ hp 0

theorem schedStep_invDim {st : SchedState} {a : PlanAction} {st' : SchedState}
    (h : schedStep st a = Except.ok st') (hinv : InvDim st) : InvDim st' := by
  obtain ⟨b, s, hcs, rfl⟩ := schedStep_elim h
  have hspec := chooseStream_spec hcs
  have hse : earliestOf st a ≤ s := hspec.2 ▸ le_max_right _ _
  obtain ⟨hcomp, hpair⟩ := hinv
  constructor
  · intro e he
    rcases List.mem_append.mp he with hold | hnew
    · by_cases hdim : e.dimension = a.dimension
      · have hset : alistGetQ (stepState st a b s).dimComp e.dimension =
            max (alistGetQ st.dimComp a.dimension) (s + a.effort_weeks) := by
          rw [hdim]
          exact alistGetQ_set_self _ _ _
        rw [hset]
        exact le_trans (le_trans (hcomp e hold) (by rw [hdim])) (le_max_left _ _)
      · have hset : alistGetQ (stepState st a b s).dimComp e.dimension =
            alistGetQ st.dimComp e.dimension :=
          alistGetQ_set_ne _ _ _ _ hdim
        rw [hset]
        exact hcomp e hold
    · have he' := List.mem_singleton.mp hnew
      subst he'
      show s + a.effort_weeks ≤ alistGetQ (alistSetQ st.dimComp a.dimension _) a.dimension
      rw [alistGetQ_set_self]
      exact le_max_right _ _
  · rw [show (stepState st a b s).entries = st.entries ++ [_] from rfl,
      List.pairwise_append]
    refine ⟨hpair, List.pairwise_singleton _ _, ?_⟩
    intro x hx y hy hdep
    have hy' := List.mem_singleton.mp hy
    subst hy'
    simp only at hdep
    calc x.end_week ≤ alistGetQ st.dimComp x.dimension := hcomp x hx
      _ ≤ earliestOf st a := dimComp_le_earliestOf hdep
      _ ≤ s := hse

theorem schedStep_invStream {st : SchedState} {a : PlanAction} {st' : SchedState}
    (h : schedStep st a = Except.ok st') (heff : 0 ≤ a.effort_weeks)
    (hinv : InvStream st) : InvStream st' := by
  obtain ⟨b, s, hcs, rfl⟩ := schedStep_elim h
  have hspec := chooseStream_spec hcs
  have hse : earliestOf st a ≤ s := hspec.2 ▸ le_max_right _ _
  have hcur : st.streams.getD b 0 ≤ s := hspec.2 ▸ le_max_left _ _
  have hs0 : 0 ≤ s := le_trans (earliestOf_nonneg st a) hse
  obtain ⟨hpos, hent, hpair⟩ := hinv
  refine ⟨?_, ?_, ?_⟩
  · intro c hc
    rcases List.mem_or_eq_of_mem_set hc with hold | rfl
    · exact hpos c hold
    · exact add_nonneg hs0 heff
  · intro e he
    rcases List.mem_append.mp he with hold | hnew
    · obtain ⟨h0, hee, b', hsb', hb'lt, hb'le⟩ := hent e hold
      refine ⟨h0, hee, b', hsb', ?_, ?_⟩
      · simpa [stepState] using hb'lt
      · by_cases hbb : b' = b
        · subst hbb
          rw [show (stepState st a b' s).streams = st.streams.set b' (s + a.effort_weeks)
            from rfl, getD_set_self _ _ _ (by simpa using hb'lt)]
          exact le_trans hb'le (le_trans hcur (le_add_of_nonneg_right heff))
        · rw [show (stepState st a b s).streams = st.streams.set b (s + a.effort_weeks)
            from rfl, getD_set_ne _ _ _ _ hbb]
          exact hb'le
    · have he' := List.mem_singleton.mp hnew
      subst he'
      refine ⟨hs0, rfl, b, rfl, ?_, ?_⟩
      · simpa [stepState] using hspec.1
      · rw [show (stepState st a b s).streams = st.streams.set b (s + a.effort_weeks)
          from rfl, getD_set_self _ _ _ hspec.1]
  · rw [show (stepState st a b s).entries = st.entries ++ [_] from rfl,
      List.pairwise_append]
    refine ⟨hpair, List.pairwise_singleton _ _, ?_⟩
    intro x hx y hy hstream
    have hy' := List.mem_singleton.mp hy
    subst hy'
    simp only at hstream
    obtain ⟨_, _, b', hsb', hb'lt, hb'le⟩ := hent x hx
    have hbb : b' = b := by omega
    subst hbb
    show x.end_week ≤ s
    exact le_trans hb'le hcur

theorem schedStep_invNat {st : SchedState} {a : PlanAction} {st' : SchedState}
    (h : schedStep st a = Except.ok st') (heff : qIsNat a.effort_weeks)
    (hinv : InvNat st) : InvNat st' := by
  obtain ⟨b, s, hcs, rfl⟩ := schedStep_elim h
  have hspec := chooseStream_spec hcs
  obtain ⟨hstr, hcompN, hentN⟩ := hinv
  have hearly : qIsNat (earliestOf st a) :=
    foldl_max_qIsNat _ _ 0 ⟨0, by simp⟩
      (fun p _ => alistGetQ_qIsNat hcompN p)
  have hsN : qIsNat s := by
    rw [hspec.2]
    exact qIsNat_max (getDQ_qIsNat hstr b) hearly
  have heN : qIsNat (s + a.effort_weeks) := qIsNat_add hsN heff
  refine ⟨?_, ?_, ?_⟩
  · intro c hc
    rcases List.mem_or_eq_of_mem_set hc with hold | rfl
    · exact hstr c hold
    · exact heN
  · intro p hp
    rcases mem_alistSetQ hp with rfl | hold
    · exact qIsNat_max (alistGetQ_qIsNat hcompN a.dimension) heN
    · exact hcompN p hold
  · intro e he
    rcases List.mem_append.mp he with hold | hnew
    · exact hentN e hold
    · have he' := List.mem_singleton.mp hnew
      subst he'
      exact ⟨hsN, heN⟩

theorem schedRun_ok : ∀ (acts : List PlanAction) (st : SchedState),
    st.streams ≠ [] →
    ∃ st', schedRun st acts = Except.ok st' ∧
      st'.streams.length = st.streams.length
  | [], st, _ => ⟨st, rfl, rfl⟩
  | a :: rest, st, h => by
    obtain ⟨q, hq⟩ := chooseStream_isSome h (earliestOf st a)
    rcases q with ⟨b, s⟩
    have hstep : schedStep st a = Except.ok (stepState st a b s) := by
      unfold schedStep
      rw [hq]
    have hlen : (stepState st a b s).streams.length = st.streams.length := by
      simp [stepState]
    have hpos : 0 < st.streams.length := List.length_pos.mpr h
    have hne : (stepState st a b s).streams ≠ [] := by
      intro hnil
      rw [hnil] at hlen
      simp at hlen
      omega
    obtain ⟨st', hrun, hlen'⟩ := schedRun_ok rest (stepState st a b s) hne
    refine ⟨st', ?_, by omega⟩
    simp only [schedRun, hstep]
    exact hrun

theorem schedRun_invDim : ∀ (acts : List PlanAction) (st st' : SchedState),
    schedRun st acts = Except.ok st' → InvDim st → InvDim st'
  | [], st, st', h, hinv => by
    simp only [schedRun] at h
    injection h with h'
    exact h' ▸ hinv
  | a :: rest, st, st', h, hinv => by
    simp only [schedRun] at h
    rcases hstep : schedStep st a with msg | st1
    · rw [hstep] at h
      cases h
    · rw [hstep] at h
      exact schedRun_invDim rest st1 st' h (schedStep_invDim hstep hinv)

theorem schedRun_invStream : ∀ (acts : List PlanAction) (st st' : SchedState),
    schedRun st acts = Except.ok st' → (∀ a ∈ acts, 0 ≤ a.effort_weeks) →
    InvStream st → InvStream st'
  | [], st, st', h, _, hinv => by
    simp only [schedRun] at h
    injection h with h'
    exact h' ▸ hinv
  | a :: rest, st, st', h, heff, hinv => by
    simp only [schedRun] at h
    rcases hstep : schedStep st a with msg | st1
    · rw [hstep] at h
      cases h
    · rw [hstep] at h
      exact schedRun_invStream rest st1 st' h
        (fun x hx => heff x (List.mem_cons_of_mem a hx))
        (schedStep_invStream hstep (heff a (List.mem_cons_self a rest)) hinv)

theorem schedRun_invNat : ∀ (acts : List PlanAction) (st st' : SchedState),
    schedRun st acts = Except.ok st' → (∀ a ∈ acts, qIsNat a.effort_weeks) →
    InvNat st → InvNat st'
  | [], st, st', h, _, hinv => by
    simp only [schedRun] at h
    injection h with h'
    exact h' ▸ hinv
  | a :: rest, st, st', h, heff, hinv => by
    simp only [schedRun] at h
    rcases hstep : schedStep st a with msg | st1
    · rw [hstep] at h
      cases h
    · rw [hstep] at h
      exact schedRun_invNat rest st1 st' h
        (fun x hx => heff x (List.mem_cons_of_mem a hx))
        (schedStep_invNat hstep (heff a (List.mem_cons_self a rest)) hinv)

theorem schedRun_entry_dims : ∀ (acts : List PlanAction) (st st' : SchedState),
    schedRun st acts = Except.ok st' →
    st'.entries.map (fun e => e.dimension) =
      st.entries.map (fun e => e.dimension) ++ acts.map (fun a => a.dimension)
  | [], st, st', h => by
    simp only [schedRun] at h
    injection h with h'
    rw [← h']
    simp
  | a :: rest, st, st', h => by
    simp only [schedRun] at h
    rcases hstep : schedStep st a with msg | st1
    · rw [hstep] at h
      cases h
    · rw [hstep] at h
      obtain ⟨b, s, _, rfl⟩ := schedStep_elim hstep
      have hrec := schedRun_entry_dims rest _ st' h
      rw [hrec]
      simp [stepState]

theorem invDim_init (n : ℕ) : InvDim ⟨List.replicate n 0, [], []⟩ :=
  ⟨by simp, List.Pairwise.nil⟩

theorem invStream_init (n : ℕ) : InvStream ⟨List.replicate n 0, [], []⟩ :=
  ⟨fun c hc => by rw [List.eq_of_mem_replicate hc], by simp, List.Pairwise.nil⟩

theorem invNat_init (n : ℕ) : InvNat ⟨List.replicate n 0, [], []⟩ :=
  ⟨fun c hc => by
    rw [List.eq_of_mem_replicate hc]
    exact ⟨0, by simp⟩, by simp, by simp⟩

theorem generateTimeline_elim {acts : List PlanAction} {n : ℕ}
    {res : TimelineResult} (h : generateTimeline acts n = Except.ok res) :
    ∃ st', schedRun ⟨List.replicate n 0, [], []⟩ acts = Except.ok st' ∧
      res.timeline_entries = st'.entries.map roundEntry := by
  unfold generateTimeline at h
  rcases hr : schedRun ⟨List.replicate n 0, [], []⟩ acts with msg | st'
  · rw [hr] at h
    simp at h
  · rw [hr] at h
    injection h with h'
    exact ⟨st', rfl, by rw [← h']⟩

theorem roundEntry_eq_self {e : TimelineEntry} (h1 : qIsNat e.start_week)
    (h2 : qIsNat e.end_week) : roundEntry e = e := by
  rw [roundEntry, roundDec_qIsNat 1 h1, roundDec_qIsNat 1 h2]

theorem roundEntry_default : roundEntry default = default := by
  have h1 : (default : TimelineEntry).start_week = 0 := rfl
  have h2 : (default : TimelineEntry).end_week = 0 := rfl
  exact roundEntry_eq_self ⟨0, by rw [h1]; norm_num⟩ ⟨0, by rw [h2]; norm_num⟩

theorem map_roundEntry_getD :
    ∀ (l : List TimelineEntry) (i : ℕ),
    (l.map roundEntry).getD i default = roundEntry (l.getD i default)
  | [], _ => by simp [roundEntry_default]
  | e :: l, 0 => rfl
  | e :: l, i + 1 => map_roundEntry_getD l i

/-! ## Dependency-graph lemmas (for C1) -/

theorem groupUpsert_prop {acc : List (String × List PlanAction)} {d : String}
    {a : PlanAction}
    (hacc : ∀ q ∈ acc, ∀ x ∈ q.2, x.dimension = q.1) (ha : a.dimension = d) :
    ∀ q ∈ groupUpsert acc d a, ∀ x ∈ q.2, x.dimension = q.1 := by
  induction acc with
  | nil =>
    intro q hq x hx
    rw [List.mem_singleton.mp hq] at hx ⊢
    rw [List.mem_singleton.mp hx]
    exact ha
  | cons p rest ih =>
    intro q hq x hx
    rw [groupUpsert] at hq
    split at hq
    · next hpd =>
      have hpd' : p.1 = d := by simpa using hpd
      rcases List.mem_cons.mp hq with rfl | hq'
      · rcases List.mem_append.mp hx with hx' | hx'
        · exact hacc p (List.mem_cons_self p rest) x hx'
        · rw [List.mem_singleton.mp hx', ha, hpd']
      · exact hacc q (List.mem_cons_of_mem p hq') x hx
    · rcases List.mem_cons.mp hq with rfl | hq'
      · exact hacc q (List.mem_cons_self q rest) x hx
      · exact ih (fun r hr => hacc r (List.mem_cons_of_mem p hr)) q hq' x hx

theorem groupByDimension_go :
    ∀ (acts : List PlanAction) (acc : List (String × List PlanAction)),
    (∀ q ∈ acc, ∀ x ∈ q.2, x.dimension = q.1) →
    ∀ q ∈ acts.foldl (fun acc a => groupUpsert acc a.dimension a) acc,
      ∀ x ∈ q.2, x.dimension = q.1
  | [], _, hacc => hacc
  | a :: acts, acc, hacc =>
    groupByDimension_go acts (groupUpsert acc a.dimension a)
      (groupUpsert_prop hacc rfl)

theorem groupByDimension_prop (acts : List PlanAction) :
    ∀ q ∈ groupByDimension acts, ∀ x ∈ q.2, x.dimension = q.1 :=
  groupByDimension_go acts [] (by simp)

theorem groupsGet_prop {acts : List PlanAction} {d : String} :
    ∀ x ∈ groupsGet (groupByDimension acts) d, x.dimension = d := by
  intro x hx
  unfold groupsGet at hx
  rcases hf : (groupByDimension acts).find? (fun p => p.1 == d) with _ | p
  · rw [hf] at hx
    simp at hx
  · rw [hf] at hx
    have hp := List.find?_some hf
    have hmem := List.mem_of_find?_eq_some hf
    have := groupByDimension_prop acts p hmem x (by simpa using hx)
    rw [this]
    simpa using hp

theorem minByPhaseRank_mem (a0 : PlanAction) (rest : List PlanAction) :
    minByPhaseRank a0 rest = a0 ∨ minByPhaseRank a0 rest ∈ rest := by
  induction rest generalizing a0 with
  | nil => exact Or.inl rfl
  | cons b rest ih =>
    rw [minByPhaseRank, List.foldl_cons]
    rcases ih (if phaseRank b.phase < phaseRank a0.phase then b else a0) with h | h
    · rw [minByPhaseRank] at h
      rw [h]
      split_ifs with hc
      · exact Or.inr (List.mem_cons_self b rest)
      · exact Or.inl rfl
    · rw [minByPhaseRank] at h
      exact Or.inr (List.mem_cons_of_mem b h)

theorem crossEdgesFor_nil_prereqs (groups : List (String × List PlanAction))
    (dim : String) : crossEdgesFor groups dim [] = [] := by
  rcases h : groupsGet groups dim with _ | ⟨d0, drest⟩ <;>
    simp [crossEdgesFor, h]

theorem crossEdgesFor_spec {acts : List PlanAction} {dim : String}
    {prereqs : List String} {e : DependencyEdge}
    (he : e ∈ crossEdgesFor (groupByDimension acts) dim prereqs) :
    ∃ prereq ∈ prereqs, e.fromAction.dimension = prereq ∧
      e.toAction.dimension = dim := by
  rcases hgd : groupsGet (groupByDimension acts) dim with _ | ⟨d0, drest⟩
  · simp [crossEdgesFor, hgd] at he
  · simp only [crossEdgesFor, hgd, List.mem_flatMap] at he
    obtain ⟨prereq, hpr, he2⟩ := he
    rcases hgq : groupsGet (groupByDimension acts) prereq with _ | ⟨q0, qrest⟩
    · rw [hgq] at he2
      simp at he2
    · rw [hgq] at he2
      simp only [List.mem_map] at he2
      obtain ⟨q, hq, rfl⟩ := he2
      have hqsub : q ∈ q0 :: qrest := by
        have hq2 := List.take_subset 2 _ hq
        split at hq2
        · exact List.take_subset 1 _ hq2
        · exact List.mem_of_mem_filter hq2
      refine ⟨prereq, hpr, ?_, ?_⟩
      · exact groupsGet_prop q (by rw [hgq]; exact hqsub)
      · have hmem : minByPhaseRank d0 drest ∈ groupsGet (groupByDimension acts) dim := by
          rw [hgd]
          rcases minByPhaseRank_mem d0 drest with h | h
          · rw [h]
            exact List.mem_cons_self d0 drest
          · exact List.mem_cons_of_mem d0 h
        exact groupsGet_prop _ hmem

theorem intraEdges_type {groups : List (String × List PlanAction)}
    {e : DependencyEdge} (he : e ∈ intraEdges groups) :
    e.dependency_type = "phase_sequence" := by
  rw [intraEdges, List.mem_flatMap] at he
  obtain ⟨p, _, he2⟩ := he
  rw [List.mem_filterMap] at he2
  obtain ⟨q, _, hf⟩ := he2
  split at hf
  · exact absurd hf (by simp)
  · injection hf with h'
    rw [← h']

theorem identifyDependencies_cross {acts : List PlanAction} {e : DependencyEdge}
    (he : e ∈ identifyDependencies acts)
    (hty : e.dependency_type = "cross_dimension") :
    e.fromAction.dimension ∈ dimDeps e.toAction.dimension := by
  simp only [identifyDependencies] at he
  rcases List.mem_append.mp he with hintra | hcross
  · rw [intraEdges_type hintra] at hty
    exact absurd hty (by decide)
  · simp only [crossEdges, dimensionDependenciesTable, List.flatMap_cons,
      List.flatMap_nil, List.append_nil, crossEdgesFor_nil_prereqs,
      List.mem_append, List.not_mem_nil, or_false] at hcross
    rcases hcross with h | h | h
    · obtain ⟨prereq, hpr, hfrom, hto⟩ := crossEdgesFor_spec h
      rw [List.mem_singleton.mp hpr] at hfrom
      rw [hfrom, hto]
      decide
    · obtain ⟨prereq, hpr, hfrom, hto⟩ := crossEdgesFor_spec h
      rw [List.mem_singleton.mp hpr] at hfrom
      rw [hfrom, hto]
      decide
    · obtain ⟨prereq, hpr, hfrom, hto⟩ := crossEdgesFor_spec h
      rw [List.mem_singleton.mp hpr] at hfrom
      rw [hfrom, hto]
      decide

/-! ## C10: responses of unknown dimensions are ignored -/

theorem dimensionScore_append_irrelevant (R E : List Response) (d : String)
    (hE : ∀ e ∈ E, e.dimension ≠ d) :
    dimensionScore (R ++ E) d = dimensionScore R d := by
  have hEnil : E.filter (fun r => r.dimension == d) = [] :=
    List.filter_eq_nil_iff.mpr (fun e he => by simpa using hE e he)
  have hfilter : (R ++ E).filter (fun r => r.dimension == d) =
      R.filter (fun r => r.dimension == d) := by
    rw [List.filter_append, hEnil, List.append_nil]
  unfold dimensionScore
  rw [hfilter]

/-- **C10.** `compute_scores` is unchanged by appending responses whose
dimension is none of the five configured dimensions. -/
theorem computeScores_ignores_unknown_dimensions
    (R E : List Response) (W : List (String × ℚ))
    (hE : ∀ e ∈ E, e.dimension ∉ dimensionsList) :
    computeScores (R ++ E) W = computeScores R W := by
  have hne : ∀ d ∈ dimensionsList, ∀ e ∈ E, e.dimension ≠ d := by
    intro d hd e he heq
    exact hE e he (heq ▸ hd)
  have hds : ∀ d ∈ dimensionsList,
      dimensionScore (R ++ E) d = dimensionScore R d := fun d hd =>
    dimensionScore_append_irrelevant R E d (hne d hd)
  unfold computeScores
  simp only [dimensionsList, List.map_cons, List.map_nil] at hds ⊢
  rw [hds "data" (by simp), hds "process" (by simp), hds "people" (by simp),
    hds "technology" (by simp), hds "governance" (by simp)]

/-- Witness for C10 at a concrete response set. -/
theorem computeScores_ignores_unknown_dimensions_witness :
    computeScores
      ([{ dimension := "data", numeric_score := some 50, weight := some 1 }] ++
        [{ dimension := "bogus", numeric_score := some 99, weight := some 1 }])
      [("data", 1)] =
    computeScores
      [{ dimension := "data", numeric_score := some 50, weight := some 1 }]
      [("data", 1)] :=
  computeScores_ignores_unknown_dimensions _ _ _ (by
    intro e he
    simp only [List.mem_singleton] at he
    subst he
    decide)

/-! ## C9: timeline entry invariants -/

theorem w9_timeline_eval : generateTimeline [w9Act] 1 = Except.ok w9Timeline := by
  have hdd : dimDeps "data" = [] := by decide
  have h0 : roundDec 1 (0 : ℚ) = 0 := roundDec_qIsNat 1 ⟨0, by norm_num⟩
  have h2 : roundDec 1 (2 : ℚ) = 2 := roundDec_qIsNat 1 ⟨2, by norm_num⟩
  norm_num [generateTimeline, schedRun, schedStep, chooseStream, chooseStreamGo,
    earliestOf, stepState, alistGetQ, alistSetQ, listMaxD, roundEntry,
    List.replicate, w9Act, w9Timeline, hdd, h0, h2]

theorem c9_timeline_eval : generateTimeline [c9Act] 1 = Except.ok c9Timeline := by
  have hdp : dimDeps "people" = [] := by decide
  have h0 : roundDec 1 (0 : ℚ) = 0 := roundDec_qIsNat 1 ⟨0, by norm_num⟩
  have hfr : roundDec 1 ((1 : ℚ)/25) = 0 := by
    rw [roundDec_of_fract_lt (by unfold Int.fract; norm_num)]
    norm_num
  norm_num [generateTimeline, schedRun, schedStep, chooseStream, chooseStreamGo,
    earliestOf, stepState, alistGetQ, alistSetQ, listMaxD, roundEntry,
    List.replicate, c9Act, c9Timeline, hdp, h0, hfr]

/-- **C9 (amended).** For `parallel_streams ≥ 1` and natural-number-valued
`effort_weeks` on every action — under which the one-decimal rounding of the
recorded weeks is the identity — every entry of a successfully produced
timeline satisfies `end_week = start_week + effort_weeks` and
`start_week ≥ 0`, and any two entries on a common stream occupy disjoint
week intervals in emission order. With merely non-negative fractional
efforts the equation `end_week = start_week + effort_weeks` fails on the
recorded (rounded) fields; see the counterexample. -/
theorem generateTimeline_entry_invariants {acts : List PlanAction} {n : ℕ}
    {res : TimelineResult} (hn : 1 ≤ n)
    (heff : ∀ a ∈ acts, qIsNat a.effort_weeks)
    (hres : generateTimeline acts n = Except.ok res) :
    (∀ e ∈ res.timeline_entries,
      e.end_week = e.start_week + e.effort_weeks ∧ 0 ≤ e.start_week) ∧
    res.timeline_entries.Pairwise
      (fun e1 e2 => e1.stream = e2.stream → e1.end_week ≤ e2.start_week) := by
  obtain ⟨st', hrun, hentries⟩ := generateTimeline_elim hres
  have heff0 : ∀ a ∈ acts, 0 ≤ a.effort_weeks := by
    intro a ha
    obtain ⟨m, hm⟩ := heff a ha
    rw [hm]
    positivity
  have hS := schedRun_invStream acts _ st' hrun heff0 (invStream_init n)
  have hN := schedRun_invNat acts _ st' hrun heff (invNat_init n)
  have hid : res.timeline_entries = st'.entries := by
    rw [hentries]
    have hre : ∀ e ∈ st'.entries, roundEntry e = id e := fun e he =>
      roundEntry_eq_self (hN.2.2 e he).1 (hN.2.2 e he).2
    rw [List.map_congr_left hre, List.map_id]
  rw [hid]
  exact ⟨fun e he => ⟨(hS.2.1 e he).2.1, (hS.2.1 e he).1⟩, hS.2.2⟩

/-- Counterexample to C9 as stated (for all non-negative efforts): with the
fractional effort `1/25` the recorded, one-decimal-rounded weeks give
`end_week = 0` while `start_week + effort_weeks = 1/25`, although every
effort is non-negative and one stream is used. -/
theorem generateTimeline_entry_invariants_counterexample :
    (∀ a ∈ [c9Act], 0 ≤ a.effort_weeks) ∧
    generateTimeline [c9Act] 1 = Except.ok c9Timeline ∧
    ∃ e ∈ c9Timeline.timeline_entries,
      e.end_week ≠ e.start_week + e.effort_weeks := by
  refine ⟨?_, c9_timeline_eval, ?_⟩
  · intro a ha
    rw [List.mem_singleton.mp ha]
    norm_num [c9Act]
  · simp only [c9Timeline]
    exact ⟨_, List.mem_singleton.mpr rfl, by norm_num⟩

/-- Witness for C9: the amended invariants at a one-action, one-stream
instance with integer effort. -/
theorem generateTimeline_entry_invariants_witness :
    (1 ≤ 1 ∧ (∀ a ∈ [w9Act], qIsNat a.effort_weeks) ∧
      generateTimeline [w9Act] 1 = Except.ok w9Timeline) ∧
    ((∀ e ∈ w9Timeline.timeline_entries,
        e.end_week = e.start_week + e.effort_weeks ∧ 0 ≤ e.start_week) ∧
      w9Timeline.timeline_entries.Pairwise
        (fun e1 e2 => e1.stream = e2.stream → e1.end_week ≤ e2.start_week)) := by
  have hq : ∀ a ∈ [w9Act], qIsNat a.effort_weeks := by
    intro a ha
    rw [List.mem_singleton.mp ha]
    exact ⟨2, by norm_num [w9Act]⟩
  exact ⟨⟨le_refl 1, hq, w9_timeline_eval⟩,
    generateTimeline_entry_invariants (le_refl 1) hq w9_timeline_eval⟩

/-! ## C1: cross-dimension scheduling causality -/

theorem c1_timeline_eval : generateTimeline c1Acts 2 = Except.ok c1Timeline := by
  have hdd : dimDeps "data" = [] := by decide
  have hdp : dimDeps "process" = ["data"] := by decide
  have h3 : roundDec 1 (3 : ℚ) = 3 := roundDec_qIsNat 1 ⟨3, by norm_num⟩
  have h0 : roundDec 1 (0 : ℚ) = 0 := roundDec_qIsNat 1 ⟨0, by norm_num⟩
  have h6 : roundDec 1 (6 : ℚ) = 6 := roundDec_qIsNat 1 ⟨6, by norm_num⟩
  have h8 : roundDec 1 (8 : ℚ) = 8 := roundDec_qIsNat 1 ⟨8, by norm_num⟩
  norm_num [generateTimeline, schedRun, schedStep, chooseStream, chooseStreamGo,
    earliestOf, stepState, alistGetQ, alistSetQ, listMaxD, roundEntry,
    List.replicate, c1Acts, c1ActA, c1ActB, c1ActC, c1Timeline, hdd, hdp,
    h3, h0, h6, h8]

theorem c1_deps_eval : identifyDependencies c1Acts =
    [{ fromAction := c1ActA, toAction := c1ActC, dependency_type := "phase_sequence" },
     c1EarlyEdge, c1LateEdge] := by
  have hg : groupByDimension c1Acts =
      [("data", [c1ActA, c1ActC]), ("process", [c1ActB])] := by decide
  have hs1 : [c1ActA, c1ActC].mergeSort
      (fun a b => decide (phaseRank a.phase ≤ phaseRank b.phase)) =
      [c1ActA, c1ActC] :=
    List.mergeSort_of_sorted (by decide)
  have hs2 : [c1ActB].mergeSort
      (fun a b => decide (phaseRank a.phase ≤ phaseRank b.phase)) = [c1ActB] :=
    List.mergeSort_of_sorted (by decide)
  simp only [identifyDependencies, hg, intraEdges, crossEdges,
    List.flatMap_cons, List.flatMap_nil, hs1, hs2]
  decide

theorem c1_warnings_eval :
    (sequenceByPriority c1Acts).dependency_warnings = [] := by
  have hsorted : List.Pairwise (fun a b => seqLe a b = true) c1Acts := by decide
  simp only [sequenceByPriority]
  rw [List.mergeSort_of_sorted hsorted]
  decide

/-- **C1 (amended).** For every cross-dimension edge of
`identify_dependencies` whose prerequisite endpoint occurs at an earlier
position of the scheduled sequence than its dependent endpoint (positions
`i < j`), the timeline that `generate_timeline` returns (any stream count
`n ≥ 1` for which it succeeds) schedules the prerequisite's recorded end
week at or before the dependent's recorded start week — so the claimed
disjunction holds with its first disjunct. As literally stated — also
allowing the prerequisite to occur after the dependent and then promising a
dependency-violation warning — the claim fails; see the counterexample. -/
theorem generateTimeline_cross_causality {acts : List PlanAction} {n : ℕ}
    {res : TimelineResult} {e : DependencyEdge} {i j : ℕ} (hn : 1 ≤ n)
    (he : e ∈ identifyDependencies acts)
    (hty : e.dependency_type = "cross_dimension")
    (hres : generateTimeline acts n = Except.ok res)
    (hij : i < j) (hj : j < acts.length)
    (hi : acts.getD i default = e.fromAction)
    (hjact : acts.getD j default = e.toAction) :
    (res.timeline_entries.getD i default).end_week ≤
      (res.timeline_entries.getD j default).start_week ∨
    dependencyViolationWarning e.toAction.dimension e.fromAction.dimension ∈
      (sequenceByPriority acts).dependency_warnings := by
  left
  obtain ⟨st', hrun, hentries⟩ := generateTimeline_elim hres
  have hinv := schedRun_invDim acts _ st' hrun (invDim_init n)
  have hdims := schedRun_entry_dims acts _ st' hrun
  simp only [List.map_nil, List.nil_append] at hdims
  have hlen : st'.entries.length = acts.length := by
    have hl := congrArg List.length hdims
    simpa using hl
  have hjlen : j < st'.entries.length := by omega
  have hilen : i < st'.entries.length := by omega
  have hdim_i : (st'.entries.getD i default).dimension = e.fromAction.dimension := by
    rw [← entries_dim_getD, hdims, actions_dim_getD, hi]
  have hdim_j : (st'.entries.getD j default).dimension = e.toAction.dimension := by
    rw [← entries_dim_getD, hdims, actions_dim_getD, hjact]
  have hdep := identifyDependencies_cross he hty
  have hpair := List.pairwise_iff_getElem.mp hinv.2
  have hle : (st'.entries.getD i default).end_week ≤
      (st'.entries.getD j default).start_week := by
    rw [List.getD_eq_getElem st'.entries default hilen,
        List.getD_eq_getElem st'.entries default hjlen]
    refine hpair i j hilen hjlen hij ?_
    rw [← List.getD_eq_getElem st'.entries default hilen,
        ← List.getD_eq_getElem st'.entries default hjlen, hdim_i, hdim_j]
    exact hdep
  rw [hentries, map_roundEntry_getD, map_roundEntry_getD]
  simp only [roundEntry]
  exact roundDec_mono 1 hle

/-- Counterexample to C1 as stated: for the cross-dimension edge from the
late data-foundation action (position 2) to the earlier process quick win
(position 1), the prerequisite's scheduled end week (8) strictly exceeds the
dependent's start week (3), yet `sequence_by_priority` emits no dependency
warning at all: its violation pass compares only the first-occurrence
indices of whole dimensions, and the first data action precedes the first
process action. -/
theorem generateTimeline_cross_causality_counterexample :
    c1LateEdge ∈ identifyDependencies c1Acts ∧
    c1LateEdge.dependency_type = "cross_dimension" ∧
    generateTimeline c1Acts 2 = Except.ok c1Timeline ∧
    c1Acts.getD 2 default = c1LateEdge.fromAction ∧
    c1Acts.getD 1 default = c1LateEdge.toAction ∧
    (c1Timeline.timeline_entries.getD 1 default).start_week <
      (c1Timeline.timeline_entries.getD 2 default).end_week ∧
    (sequenceByPriority c1Acts).dependency_warnings = [] := by
  refine ⟨?_, rfl, c1_timeline_eval, by decide, by decide, by decide,
    c1_warnings_eval⟩
  rw [c1_deps_eval]
  decide

/-- Witness for C1: the early cross-dimension edge (data quick win at
position 0 → process quick win at position 1) on two streams. -/
theorem generateTimeline_cross_causality_witness :
    ((1 : ℕ) ≤ 2 ∧ c1EarlyEdge ∈ identifyDependencies c1Acts ∧
      c1EarlyEdge.dependency_type = "cross_dimension" ∧
      generateTimeline c1Acts 2 = Except.ok c1Timeline ∧
      0 < 1 ∧ 1 < c1Acts.length ∧
      c1Acts.getD 0 default = c1EarlyEdge.fromAction ∧
      c1Acts.getD 1 default = c1EarlyEdge.toAction) ∧
    ((c1Timeline.timeline_entries.getD 0 default).end_week ≤
        (c1Timeline.timeline_entries.getD 1 default).start_week ∨
      dependencyViolationWarning c1EarlyEdge.toAction.dimension
        c1EarlyEdge.fromAction.dimension ∈
        (sequenceByPriority c1Acts).dependency_warnings) := by
  have hmem : c1EarlyEdge ∈ identifyDependencies c1Acts := by
    rw [c1_deps_eval]
    decide
  exact ⟨⟨by norm_num, hmem, rfl, c1_timeline_eval, Nat.zero_lt_one, by decide,
      by decide, by decide⟩,
    generateTimeline_cross_causality (by norm_num) hmem rfl c1_timeline_eval
      Nat.zero_lt_one (by decide) (by decide) (by decide)⟩

end Aumos
